import Mathlib

/-!
# Kanmind backend — shallow embedding and verification

This file embeds the data model and the request-handler operations of the
Kanmind kanban backend (Django/DRF application: `auth_app`, `board_app`,
`tasks_app`) as executable Lean definitions, and proves the specified
properties about them.

Conventions of the embedding:
* Database tables are Lean lists of records; primary keys are `Nat`.
* Fallible handlers return `Except`-style results paired with the
  post-request database state (an error leaves the state unchanged unless
  the handler saved something before failing, exactly as the source does).
* Machine-level concerns (HTTP parsing, ORM query compilation) are out of
  scope; the embedded functions mirror the Python view/serializer logic
  line by line.
-/

namespace Kanmind

/-- A row of the custom `User` model (`auth_app/models.py`): Django's
`AbstractUser` fields that this system touches (`id`, unique `username`,
`email`, `password` hash) plus the project-specific `fullname`. -/
structure User where
  id : Nat
  username : String
  fullname : String
  email : String
  passwordHash : String
  deriving Repr, DecidableEq

/-- Modelled from the spec: password hashing primitives are declared external
collaborators ("Out of scope: … password hashing primitives").  We model the
one-way hash as a tagging injection so that `check_password` (hash-compare)
agrees with raw-password equality, which is the contract the spec relies on. -/
def hashPw (raw : String) : String := "pbkdf2_sha256$" ++ raw

/-- `user.check_password(raw)` — compares the stored hash with the hash of
the supplied raw password. -/
def checkPassword (u : User) (raw : String) : Bool :=
  u.passwordHash == hashPw raw

/-- Auth-side database state: the user table, the DRF token table
(`rest_framework.authtoken` — one row per user, `(user_id, key)`), and the
key/id generators. -/
structure AuthDB where
  users : List User
  tokens : List (Nat × String)
  nextUserId : Nat
  nextTokenSeq : Nat
  deriving Repr, DecidableEq

/-- Opaque token-key generator (token keys are opaque bearer strings). -/
def tokenKey (n : Nat) : String := "token$" ++ toString n

/-- The ways `RegistrationSerializer.save` (and the underlying
`account.save()`) can fail. -/
inductive RegError where
  | passwordMismatch
  | emailExists
  | usernameTaken
  deriving Repr, DecidableEq

/-- Which failures are DRF `ValidationError`s (HTTP 400).  The duplicate
`username` case is a database `IntegrityError` from the unique constraint
that `AbstractUser.username` carries, not a serializer validation error. -/
def RegError.isValidationError : RegError → Bool
  | .passwordMismatch => true
  | .emailExists => true
  | .usernameTaken => false

/-- The key of the field-keyed error payload each `ValidationError` raises:
`{'error': 'passwords dont match'}` and `{"email": "Email already exists"}`
in `RegistrationSerializer.save`. -/
def RegError.payloadKey : RegError → Option String
  | .passwordMismatch => some "error"
  | .emailExists => some "email"
  | .usernameTaken => none

/-- `User.objects.filter(email=self.validated_data['email']).exists()` —
the registration-time email-uniqueness check: exact, case-sensitive match. -/
def emailTaken (db : AuthDB) (email : String) : Bool :=
  db.users.any (fun u => u.email == email)

/-- `RegistrationSerializer.save` (`auth_app/api/serializers.py`): check the
two passwords match, check the email is not taken (exact match), then create
the user with `username = fullname`, `fullname = fullname`, and the hashed
password.  `account.save()` enforces the inherited unique constraint on
`username`, surfaced here as `RegError.usernameTaken`. -/
def regSave (db : AuthDB) (fullname email password repeatedPassword : String) :
    Except RegError User × AuthDB :=
  if password ≠ repeatedPassword then
    (.error .passwordMismatch, db)
  else if emailTaken db email then
    (.error .emailExists, db)
  else if db.users.any (fun u => u.username == fullname) then
    (.error .usernameTaken, db)
  else
    let account : User :=
      { id := db.nextUserId
        username := fullname
        fullname := fullname
        email := email
        passwordHash := hashPw password }
    (.ok account,
      { db with users := db.users ++ [account], nextUserId := db.nextUserId + 1 })

/-- `EmailBackend.authenticate` (`auth_app/backends.py`): look the user up by
exact email, return `none` when absent, then verify the password hash;
fails closed. -/
def authenticate (db : AuthDB) (email password : String) : Option User :=
  match db.users.find? (fun u => u.email == email) with
  | none => none
  | some u => if checkPassword u password then some u else none

/-- `Token.objects.get_or_create(user=...)` as used by `RegistrationView.post`
and `CustomLoginView.post`: return the existing token of the user when
present, otherwise create a fresh one. -/
def issueOrGetToken (db : AuthDB) (userId : Nat) : String × AuthDB :=
  match db.tokens.find? (fun p => p.1 == userId) with
  | some p => (p.2, db)
  | none =>
    let key := tokenKey db.nextTokenSeq
    (key,
      { db with tokens := db.tokens ++ [(userId, key)],
                nextTokenSeq := db.nextTokenSeq + 1 })

/-- Lower-casing of a string, character by character (the case folding
behind `__iexact`). -/
def strLower (s : String) : String := ⟨s.data.map Char.toLower⟩

/-- `EmailCheckView.get`'s lookup (`auth_app/api/views.py`):
`User.objects.filter(email__iexact=email).first()` — case-insensitive
exact match on the email. -/
def findByEmail (db : AuthDB) (email : String) : Option User :=
  db.users.find? (fun u => strLower u.email == strLower email)

/-! ## Board / Task / Comment data model (`board_app/models.py`, `tasks_app/models.py`) -/

/-- A row of the `Board` model: title, owner FK, and the `members`
many-to-many set (kept as a duplicate-free id list, matching m2m-table
semantics). -/
structure Board where
  id : Nat
  title : String
  ownerId : Nat
  memberIds : List Nat
  deriving Repr, DecidableEq

/-- `Task.Status` choices (`tasks_app/models.py`): the stored values. -/
def Task.Status.TODO : String := "to-do"

def Task.Status.IN_PROGRESS : String := "in-progress"

def Task.Status.REVIEW : String := "review"

def Task.Status.DONE : String := "done"

/-- The list of valid stored `status` values (`Status.choices`). -/
def Task.Status.values : List String :=
  [Task.Status.TODO, Task.Status.IN_PROGRESS, Task.Status.REVIEW, Task.Status.DONE]

/-- `Task.Priority` choices: the stored values. -/
def Task.Priority.LOW : String := "low"

def Task.Priority.MEDIUM : String := "medium"

def Task.Priority.HIGH : String := "high"

/-- The list of valid stored `priority` values (`Priority.choices`). -/
def Task.Priority.values : List String :=
  [Task.Priority.LOW, Task.Priority.MEDIUM, Task.Priority.HIGH]

/-- A row of the `Task` model.  `status`/`priority` are stored as their
choice strings exactly as the `CharField(choices=...)` columns store them.
`commentsCount` is carried as an `Int` so that the `F("comments_count") - 1`
update is modelled without building in any clamping at zero. -/
structure Task where
  id : Nat
  boardId : Nat
  title : String
  description : String
  status : String
  priority : String
  assigneeId : Option Nat
  reviewerId : Option Nat
  dueDate : Option String
  commentsCount : Int
  deriving Repr, DecidableEq

/-- A row of the `TaskComment` model. -/
structure TaskComment where
  id : Nat
  taskId : Nat
  authorId : Nat
  content : String
  createdAt : Nat
  deriving Repr, DecidableEq

/-- The relational store the board/task/comment handlers operate on.
`nextId` is the shared primary-key generator. -/
structure DB where
  users : List User
  boards : List Board
  tasks : List Task
  comments : List TaskComment
  nextId : Nat
  deriving Repr, DecidableEq

/-- HTTP-level failure taxonomy of the handlers. -/
inductive ApiError where
  | notFound
  | forbidden
  | validation (field : String)
  | badRequest (detail : String)
  deriving Repr, DecidableEq

def DB.getBoard (s : DB) (pk : Nat) : Option Board :=
  s.boards.find? (fun b => b.id == pk)

def DB.getTask (s : DB) (pk : Nat) : Option Task :=
  s.tasks.find? (fun t => t.id == pk)

def DB.getUser (s : DB) (pk : Nat) : Option User :=
  s.users.find? (fun u => u.id == pk)

/-- The "owner or member" predicate that the source spells out four times
(`IsOwnerOrMember`, `IsBoardMemberOfTask`, the `is_member` local of
`IsBoardMemberForUpdateOrReviewerOrOwnerForDelete`, and
`TaskSerializer._check_user_membership`):
`user == board.owner or board.members.filter(pk=user.pk).exists()`. -/
def boardMemberOrOwner (b : Board) (userId : Nat) : Bool :=
  b.ownerId == userId || b.memberIds.contains userId

/-- `IsBoardMemberForUpdateOrReviewerOrOwnerForDelete.has_object_permission`
(`tasks_app/api/permissions.py`): PATCH/PUT need board membership, DELETE
needs reviewer-or-board-owner, any other method passes for an authenticated
user (the embedding only ever models authenticated actors). -/
def taskDetailObjectPermission (method : String) (userId : Nat) (t : Task) (b : Board) : Bool :=
  let is_member := boardMemberOrOwner b userId
  if method == "PATCH" || method == "PUT" then is_member
  else if method == "DELETE" then t.reviewerId == some userId || b.ownerId == userId
  else true

/-- `Model.objects.filter(pk=pk).update(...)` on the task table: rewrite
every row whose pk matches. -/
def updateWhere (tasks : List Task) (pk : Nat) (f : Task → Task) : List Task :=
  tasks.map (fun t => if t.id == pk then f t else t)

/-- The comments_count column of task `tid`, when the task exists. -/
def countOf (s : DB) (tid : Nat) : Option Int :=
  (s.getTask tid).map Task.commentsCount

/-- The live number of comment rows attached to task id `tid`. -/
def liveCount (s : DB) (tid : Nat) : Nat :=
  (s.comments.filter (fun c => c.taskId == tid)).length

/-! ## Comment handlers (`tasks_app/api/views.py`) -/

/-- `TaskCommentView.post`: 404 the task, check `IsBoardMemberOfTask`,
create the comment row, then
`Task.objects.filter(pk=task.pk).update(comments_count=F("comments_count") + 1)`. -/
def createComment (s : DB) (pk actorId : Nat) (content : String) :
    Except ApiError (TaskComment × DB) :=
  match s.getTask pk with
  | none => .error .notFound
  | some task =>
    match s.getBoard task.boardId with
    | none => .error .notFound
    | some board =>
      if ! boardMemberOrOwner board actorId then .error .forbidden
      else
        let comment : TaskComment :=
          { id := s.nextId, taskId := task.id, authorId := actorId,
            content := content, createdAt := s.nextId }
        .ok (comment,
          { s with
            comments := s.comments ++ [comment]
            tasks := updateWhere s.tasks task.id
              (fun t => { t with commentsCount := t.commentsCount + 1 })
            nextId := s.nextId + 1 })

/-- `TaskCommentView.get`: the comment list, ordered by `created_at`
ascending (`createdAt` is issued monotonically, so the stored order is
already the creation order). -/
def listComments (s : DB) (pk actorId : Nat) : Except ApiError (List TaskComment) :=
  match s.getTask pk with
  | none => .error .notFound
  | some task =>
    match s.getBoard task.boardId with
    | none => .error .notFound
    | some board =>
      if ! boardMemberOrOwner board actorId then .error .forbidden
      else .ok (s.comments.filter (fun c => c.taskId == task.id))

/-- `TaskCommentDetailView` (`get_object` + `perform_destroy`): 404 the
task, 404 the comment scoped to that task, check `IsAuthorOfTaskComment`,
delete the row, then
`Task.objects.filter(pk=task_id).update(comments_count=F("comments_count") - 1)`. -/
def deleteComment (s : DB) (pk commentPk actorId : Nat) : Except ApiError DB :=
  match s.getTask pk with
  | none => .error .notFound
  | some task =>
    match s.comments.find? (fun c => c.id == commentPk && c.taskId == task.id) with
    | none => .error .notFound
    | some comment =>
      if comment.authorId != actorId then .error .forbidden
      else
        .ok { s with
          comments := s.comments.filter (fun c => ! (c.id == commentPk))
          tasks := updateWhere s.tasks comment.taskId
            (fun t => { t with commentsCount := t.commentsCount - 1 }) }

/-! ## Task handlers (`tasks_app/api/views.py`, `tasks_app/api/serializers.py`) -/

/-- `TaskSerializer._get_valid_user`: `None` stays `None`; otherwise the id
must resolve to a user who is the board's owner or a member, else a
field-keyed `ValidationError`. -/
def getValidUser (s : DB) (userId : Option Nat) (b : Board) (field : String) :
    Except ApiError (Option User) :=
  match userId with
  | none => .ok none
  | some uid =>
    match s.getUser uid with
    | none => .error (.validation field)
    | some u =>
      if boardMemberOrOwner b u.id then .ok (some u)
      else .error (.validation field)

/-- The request body of `POST /api/tasks/` after DRF field validation:
`status`/`priority` are already checked against the model choices
(`ChoiceField`), absent values fall back to the model defaults. -/
structure TaskCreateInput where
  boardId : Option Nat
  title : String
  description : String
  status : Option String
  priority : Option String
  dueDate : Option String
  assigneeId : Option Nat
  reviewerId : Option Nat
  deriving Repr, DecidableEq

/-- `CreateTaskView.perform_create` + `TaskSerializer.create`: 404 the
board, `ChoiceField`-validate status/priority, check actor membership,
validate assignee and reviewer, create the task with `comments_count = 0`
(the model default). -/
def createTask (s : DB) (inp : TaskCreateInput) (actorId : Nat) :
    Except ApiError (Task × DB) :=
  match inp.boardId with
  | none => .error .notFound
  | some bid =>
    match s.getBoard bid with
    | none => .error .notFound
    | some board =>
      let status := inp.status.getD Task.Status.TODO
      let priority := inp.priority.getD Task.Priority.MEDIUM
      if ! Task.Status.values.contains status then .error (.validation "status")
      else if ! Task.Priority.values.contains priority then .error (.validation "priority")
      else if ! boardMemberOrOwner board actorId then .error .forbidden
      else
        match getValidUser s inp.assigneeId board "assignee_id" with
        | .error e => .error e
        | .ok assignee =>
          match getValidUser s inp.reviewerId board "reviewer_id" with
          | .error e => .error e
          | .ok reviewer =>
            let task : Task :=
              { id := s.nextId, boardId := board.id, title := inp.title,
                description := inp.description, status := status,
                priority := priority,
                assigneeId := assignee.map User.id,
                reviewerId := reviewer.map User.id,
                dueDate := inp.dueDate, commentsCount := 0 }
            .ok (task, { s with tasks := s.tasks ++ [task], nextId := s.nextId + 1 })

/-- The three-state patch value for `assignee_id`/`reviewer_id`: key absent,
explicit `null`, or an explicit id (`serializers.empty` vs `None` vs value
in the source). -/
inductive Patch3 where
  | absent
  | null
  | set (id : Nat)
  deriving Repr, DecidableEq

/-- A PATCH body for a task after DRF field validation (present scalar
values already `ChoiceField`-checked where applicable). -/
structure TaskPatch where
  title : Option String
  description : Option String
  status : Option String
  priority : Option String
  dueDate : Option (Option String)
  assigneeId : Patch3
  reviewerId : Patch3
  deriving Repr, DecidableEq

/-- `TaskSerializer._maybe_assign_user`: `serializers.empty` keeps the
current value, `None` clears, an id goes through `_get_valid_user`. -/
def maybeAssignUser (s : DB) (b : Board) (p : Patch3) (field : String)
    (current : Option Nat) : Except ApiError (Option Nat) :=
  match p with
  | .absent => .ok current
  | .null => .ok none
  | .set uid =>
    match getValidUser s (some uid) b field with
    | .error e => .error e
    | .ok u => .ok (u.map User.id)

/-- `TaskDetailView.patch` → `partial_update` → `TaskSerializer.update`:
object-level PATCH permission (board membership), `ChoiceField` checks on
present status/priority, three-state assignee/reviewer handling, then
`_update_simple_fields` replaces exactly the scalar fields present in the
patch; the board FK is read-only and never touched. -/
def patchTask (s : DB) (pk : Nat) (p : TaskPatch) (actorId : Nat) :
    Except ApiError (Task × DB) :=
  match s.getTask pk with
  | none => .error .notFound
  | some task =>
    match s.getBoard task.boardId with
    | none => .error .notFound
    | some board =>
      if ! taskDetailObjectPermission "PATCH" actorId task board then .error .forbidden
      else if ! (p.status.all (fun v => Task.Status.values.contains v)) then
        .error (.validation "status")
      else if ! (p.priority.all (fun v => Task.Priority.values.contains v)) then
        .error (.validation "priority")
      else
        match maybeAssignUser s board p.assigneeId "assignee_id" task.assigneeId with
        | .error e => .error e
        | .ok assignee =>
          match maybeAssignUser s board p.reviewerId "reviewer_id" task.reviewerId with
          | .error e => .error e
          | .ok reviewer =>
            let task' : Task :=
              { task with
                assigneeId := assignee
                reviewerId := reviewer
                title := p.title.getD task.title
                description := p.description.getD task.description
                status := p.status.getD task.status
                priority := p.priority.getD task.priority
                dueDate := p.dueDate.getD task.dueDate }
            .ok (task', { s with tasks := updateWhere s.tasks pk (fun _ => task') })

/-- `TaskDetailView.delete` → `destroy`: object-level DELETE permission
(reviewer or board owner), then `instance.delete()` with the CASCADE to the
task's comments. -/
def deleteTask (s : DB) (pk actorId : Nat) : Except ApiError DB :=
  match s.getTask pk with
  | none => .error .notFound
  | some task =>
    match s.getBoard task.boardId with
    | none => .error .notFound
    | some board =>
      if ! taskDetailObjectPermission "DELETE" actorId task board then .error .forbidden
      else
        .ok { s with
          tasks := s.tasks.filter (fun t => ! (t.id == pk))
          comments := s.comments.filter (fun c => ! (c.taskId == pk)) }

/-! ## Board handlers (`board_app/api/views.py`, `board_app/api/serializers.py`) -/

/-- The write-only `members` field of `BoardSerializer`:
`PrimaryKeyRelatedField(many=True, queryset=User.objects.all())`.  Its
`to_internal_value` resolves each incoming pk against the queryset and
raises a field-keyed `ValidationError` for a pk that does not exist. -/
def membersFieldToInternal (s : DB) : List Nat → Except ApiError (List User)
  | [] => .ok []
  | i :: rest =>
    match s.getUser i with
    | none => .error (.validation "members")
    | some u =>
      match membersFieldToInternal s rest with
      | .error e => .error e
      | .ok us => .ok (u :: us)

/-- `BoardListCreateView` POST → `BoardSerializer.create`: owner is the
requesting user, `board.members.set(members)` installs the resolved users
(m2m set semantics: duplicate-free). -/
def createBoard (s : DB) (title : String) (memberIds : List Nat) (actorId : Nat) :
    Except ApiError (Board × DB) :=
  match membersFieldToInternal s memberIds with
  | .error e => .error e
  | .ok members =>
    let board : Board :=
      { id := s.nextId, title := title, ownerId := actorId,
        memberIds := (members.map User.id).dedup }
    .ok (board, { s with boards := s.boards ++ [board], nextId := s.nextId + 1 })

/-- `BoardListCreateView.get_queryset`:
`(Board.objects.filter(owner=user) | Board.objects.filter(members=user)).distinct()`. -/
def listBoardsVisibleTo (s : DB) (userId : Nat) : List Board :=
  s.boards.filter (fun b => b.ownerId == userId || b.memberIds.contains userId)

/-- The `members` value popped from a board PATCH body: either a list of
ids or some other JSON value (the `isinstance(members_ids, (list, tuple))`
check in the source). -/
inductive MembersJson where
  | idList (ids : List Nat)
  | notAList
  deriving Repr, DecidableEq

/-- A board PATCH body: `title` handled by `BoardDetailSerializer`
(its only writable field), `members` popped and handled by hand. -/
structure BoardPatchInput where
  title : Option String
  members : Option MembersJson
  deriving Repr, DecidableEq

/-- Outcome of `BoardDetailView.patch`: the HTTP status and the database
state after the request (the source saves non-member fields before it
validates `members`, so a 400 can leave a partially updated board). -/
structure PatchBoardResult where
  status : Nat
  db : DB
  deriving Repr, DecidableEq

/-- `BoardDetailView.patch` (`board_app/api/views.py`): 404 the board,
`IsOwnerOrMember` object check, save the non-member fields first
(title), then — only if `members` was supplied — require a list, require
`users.count() == len(set(members_ids))`, and replace the membership
wholesale with `instance.members.set(users)`. -/
def patchBoard (s : DB) (pk : Nat) (inp : BoardPatchInput) (actorId : Nat) :
    PatchBoardResult :=
  match s.getBoard pk with
  | none => ⟨404, s⟩
  | some board =>
    if ! boardMemberOrOwner board actorId then ⟨403, s⟩
    else
      let board1 : Board := { board with title := inp.title.getD board.title }
      let s1 : DB :=
        { s with boards := s.boards.map (fun b => if b.id == pk then board1 else b) }
      match inp.members with
      | none => ⟨200, s1⟩
      | some .notAList => ⟨400, s1⟩
      | some (.idList ids) =>
        let users := s1.users.filter (fun u => ids.contains u.id)
        if users.length != ids.dedup.length then ⟨400, s1⟩
        else
          let board2 : Board := { board1 with memberIds := users.map User.id }
          ⟨200, { s1 with
            boards := s1.boards.map (fun b => if b.id == pk then board2 else b) }⟩

/-- `BoardSerializer.get_member_count`: `obj.members.count()`. -/
def get_member_count (b : Board) : Nat := b.memberIds.length

/-- `BoardSerializer.get_ticket_count`: `obj.tasks.count()`. -/
def get_ticket_count (s : DB) (b : Board) : Nat :=
  (s.tasks.filter (fun t => t.boardId == b.id)).length

/-- `BoardSerializer.get_tasks_to_do_count`:
`obj.tasks.filter(status="TODO").count()` — the literal `"TODO"`, exactly
as the source writes it. -/
def get_tasks_to_do_count (s : DB) (b : Board) : Nat :=
  (s.tasks.filter (fun t => t.boardId == b.id && t.status == "TODO")).length

/-- `BoardSerializer.get_tasks_high_prio_count`:
`obj.tasks.filter(priority="HIGH").count()` — the literal `"HIGH"`, exactly
as the source writes it. -/
def get_tasks_high_prio_count (s : DB) (b : Board) : Nat :=
  (s.tasks.filter (fun t => t.boardId == b.id && t.priority == "HIGH")).length

/-! ## Well-formedness of the store -/

/-- The denormalized-counter invariant: every task's `comments_count`
column equals its live number of comment rows. -/
def countersAccurate (s : DB) : Prop :=
  ∀ t ∈ s.tasks, t.commentsCount = (liveCount s t.id : Int)

/-- Relational well-formedness: primary keys are below the generator and
duplicate-free, user pks are duplicate-free, comments reference existing
tasks, and the comment counters are accurate. -/
def WF (s : DB) : Prop :=
  (∀ t ∈ s.tasks, t.id < s.nextId) ∧
  (∀ c ∈ s.comments, c.id < s.nextId) ∧
  (s.tasks.map Task.id).Nodup ∧
  (s.comments.map TaskComment.id).Nodup ∧
  (s.users.map User.id).Nodup ∧
  (∀ c ∈ s.comments, ∃ t ∈ s.tasks, t.id = c.taskId) ∧
  countersAccurate s

/-! ## Concrete example stores used by the claim theorems -/

/-- Concrete store for the permission comparison: two users. -/
def c2DB0 : DB :=
  ⟨[⟨1, "A", "A", "a@x.com", "h1"⟩, ⟨2, "B", "B", "b@x.com", "h2"⟩], [], [], [], 10⟩

/-- Board 10, owned by user 1, member set `[2]` (as created). -/
def c2Board : Board := ⟨10, "Sprint", 1, [2]⟩

/-- Board 10 after user 2 was removed from the members. -/
def c2BoardAfter : Board := ⟨10, "Sprint", 1, []⟩

/-- Task 11 on board 10, reviewer user 2. -/
def c2Task : Task := ⟨11, 10, "T", "", "to-do", "high", none, some 2, none, 0⟩

def c2DB1 : DB := ⟨c2DB0.users, [c2Board], [], [], 11⟩

def c2DB2 : DB := ⟨c2DB0.users, [c2Board], [c2Task], [], 12⟩

def c2DB3 : DB := ⟨c2DB0.users, [c2BoardAfter], [c2Task], [], 12⟩

/-- An empty task PATCH body. -/
def c2EmptyPatch : TaskPatch := ⟨none, none, none, none, none, .absent, .absent⟩

/-- Store with one board (owner 1, member 2) and no tasks yet. -/
def c5DB0 : DB :=
  ⟨[⟨1, "A", "A", "a@x.com", "h"⟩, ⟨2, "B", "B", "b@x.com", "h"⟩],
   [⟨10, "Sprint", 1, [2]⟩], [], [], 11⟩

/-- The task the create-task handler stores for a default-status,
high-priority request: status `"to-do"`, priority `"high"`. -/
def c5Task : Task := ⟨11, 10, "Fix", "", "to-do", "high", none, none, none, 0⟩

def c5DB : DB :=
  ⟨c5DB0.users, c5DB0.boards, [c5Task], [], 12⟩

/-- Store with a single user, id 1. -/
def c6DB : DB := ⟨[⟨1, "A", "A", "a@x.com", "h"⟩], [], [], [], 10⟩

/-- Store with one user and one board titled "Old". -/
def c3DB : DB := ⟨[⟨1, "A", "A", "a@x.com", "h"⟩], [⟨7, "Old", 1, []⟩], [], [], 8⟩


/-! ## Basic lemmas about the auth component -/

theorem hashPw_injective : Function.Injective hashPw := by
  intro a b h
  unfold hashPw at h
  have hd := congrArg String.data h
  simp only [String.data_append] at hd
  exact String.ext (List.append_cancel_left hd)

theorem emailTaken_iff (db : AuthDB) (em : String) :
    emailTaken db em = true ↔ ∃ u ∈ db.users, u.email = em := by
  simp [emailTaken, List.any_eq_true]

theorem regSave_mismatch (db : AuthDB) (fn em pw rpw : String) (h : pw ≠ rpw) :
    regSave db fn em pw rpw = (.error .passwordMismatch, db) := by
  simp [regSave, h]

theorem regSave_email_taken (db : AuthDB) (fn em pw : String)
    (h : emailTaken db em = true) :
    regSave db fn em pw pw = (.error .emailExists, db) := by
  simp [regSave, h]

theorem regSave_username_taken (db : AuthDB) (fn em pw : String)
    (h1 : emailTaken db em = false)
    (h2 : db.users.any (fun u => u.username == fn) = true) :
    regSave db fn em pw pw = (.error .usernameTaken, db) := by
  simp [regSave, h1, h2]

theorem regSave_ok (db : AuthDB) (fn em pw : String)
    (h1 : emailTaken db em = false)
    (h2 : db.users.any (fun u => u.username == fn) = false) :
    regSave db fn em pw pw =
      (.ok { id := db.nextUserId, username := fn, fullname := fn, email := em,
             passwordHash := hashPw pw },
       { db with
          users := db.users ++
            [{ id := db.nextUserId, username := fn, fullname := fn, email := em,
               passwordHash := hashPw pw }]
          nextUserId := db.nextUserId + 1 }) := by
  simp [regSave, h1, h2]

theorem find?_append_left_none {α : Type} (l1 l2 : List α) (p : α → Bool)
    (h : l1.find? p = none) : (l1 ++ l2).find? p = l2.find? p := by
  rw [List.find?_append, h, Option.none_or]

/-! ## Claim theorems: auth component -/

/-- C4: `regSave` fails with a DRF `ValidationError` exactly when the
password differs from its repetition or a user with exactly that
(case-sensitively matched) email already exists; every failure leaves the
user table unchanged; the mismatched-password failure carries a field-keyed
error payload; and a success stores only the one-way hash of the raw
password. -/
theorem register_validation_rules (db : AuthDB) (fn em pw rpw : String) :
    ((∃ e, (regSave db fn em pw rpw).1 = .error e ∧ e.isValidationError = true) ↔
      (pw ≠ rpw ∨ ∃ u ∈ db.users, u.email = em)) ∧
    (∀ e, (regSave db fn em pw rpw).1 = .error e → (regSave db fn em pw rpw).2 = db) ∧
    (pw ≠ rpw →
      (regSave db fn em pw rpw).1 = .error .passwordMismatch ∧
      RegError.payloadKey .passwordMismatch = some "error") ∧
    (∀ u db', regSave db fn em pw rpw = (.ok u, db') →
      u.passwordHash = hashPw pw ∧ u.email = em ∧ db'.users = db.users ++ [u]) := by
  by_cases hpw : pw = rpw
  · subst hpw
    by_cases hem : emailTaken db em = true
    · have hrw := regSave_email_taken db fn em pw hem
      refine ⟨?_, ?_, ?_, ?_⟩
      · constructor
        · intro _
          exact Or.inr ((emailTaken_iff db em).mp hem)
        · intro _
          exact ⟨.emailExists, by rw [hrw], rfl⟩
      · intro e _
        rw [hrw]
      · intro h
        exact absurd rfl h
      · intro u db' h
        rw [hrw] at h
        exact absurd (congrArg Prod.fst h) (by simp)
    · have hem' : emailTaken db em = false := by
        simpa using hem
      by_cases hun : db.users.any (fun u => u.username == fn) = true
      · have hrw := regSave_username_taken db fn em pw hem' hun
        refine ⟨?_, ?_, ?_, ?_⟩
        · constructor
          · rintro ⟨e, he, hv⟩
            rw [hrw] at he
            simp at he
            subst he
            simp [RegError.isValidationError] at hv
          · rintro (h | h)
            · exact absurd rfl h
            · exact absurd ((emailTaken_iff db em).mpr h) (by simp [hem'])
        · intro e _
          rw [hrw]
        · intro h
          exact absurd rfl h
        · intro u db' h
          rw [hrw] at h
          exact absurd (congrArg Prod.fst h) (by simp)
      · have hun' : db.users.any (fun u => u.username == fn) = false := by
          simpa using hun
        have hrw := regSave_ok db fn em pw hem' hun'
        refine ⟨?_, ?_, ?_, ?_⟩
        · constructor
          · rintro ⟨e, he, _⟩
            rw [hrw] at he
            simp at he
          · rintro (h | h)
            · exact absurd rfl h
            · exact absurd ((emailTaken_iff db em).mpr h) (by simp [hem'])
        · intro e he
          rw [hrw] at he
          simp at he
        · intro h
          exact absurd rfl h
        · intro u db' h
          rw [hrw] at h
          have h1 := congrArg Prod.fst h
          have h2 := congrArg Prod.snd h
          simp at h1 h2
          subst h1
          exact ⟨rfl, rfl, by rw [← h2]⟩
  · have hrw := regSave_mismatch db fn em pw rpw hpw
    refine ⟨?_, ?_, ?_, ?_⟩
    · constructor
      · intro _
        exact Or.inl hpw
      · intro _
        exact ⟨.passwordMismatch, by rw [hrw], rfl⟩
    · intro e _
      rw [hrw]
    · intro _
      exact ⟨by rw [hrw], rfl⟩
    · intro u db' h
      rw [hrw] at h
      exact absurd (congrArg Prod.fst h) (by simp)

/-- Witness for C4 at concrete inputs: mismatched passwords are rejected
with the keyed error and the store is untouched. -/
theorem register_validation_rules_witness :
    (regSave ⟨[], [], 1, 1⟩ "Amy" "amy@x.com" "p" "q").1 = .error .passwordMismatch ∧
    (regSave ⟨[], [], 1, 1⟩ "Amy" "amy@x.com" "p" "q").2 = ⟨[], [], 1, 1⟩ := by
  have h := register_validation_rules ⟨[], [], 1, 1⟩ "Amy" "amy@x.com" "p" "q"
  have hne : "p" ≠ "q" := by decide
  exact ⟨(h.2.2.1 hne).1, h.2.1 .passwordMismatch (h.2.2.1 hne).1⟩

/-- C8: the registration-time uniqueness check matches emails exactly
(case-sensitively), the email-check endpoint looks up case-insensitively,
and the two genuinely diverge: a store can answer "found" to the lookup
while the registration check reports the very same email as free. -/
theorem email_case_policy_divergence :
    (∀ db em, emailTaken db em = true ↔ ∃ u ∈ db.users, u.email = em) ∧
    (∀ db em u, findByEmail db em = some u → strLower u.email = strLower em) ∧
    (∃ db em u, findByEmail db em = some u ∧ emailTaken db em = false) := by
  refine ⟨emailTaken_iff, ?_, ?_⟩
  · intro db em u h
    have := List.find?_some h
    simpa using this
  · exact ⟨⟨[⟨1, "A", "A", "Alice@X.com", ""⟩], [], 2, 1⟩, "alice@x.com",
      ⟨1, "A", "A", "Alice@X.com", ""⟩, by decide, by decide⟩

/-- Witness for C8: the case-sensitive check applied at a concrete store. -/
theorem email_case_policy_divergence_witness :
    emailTaken ⟨[⟨1, "A", "A", "a@x.com", ""⟩], [], 2, 1⟩ "a@x.com" = true :=
  (email_case_policy_divergence.1 ⟨[⟨1, "A", "A", "a@x.com", ""⟩], [], 2, 1⟩
    "a@x.com").mpr ⟨⟨1, "A", "A", "a@x.com", ""⟩, by simp, rfl⟩

/-- C9: a freshly registered user authenticates with the same email and
password and gets their own record back; a different password or an email
no user carries authenticates to `none`; and `issueOrGetToken` is
idempotent — a second call returns the same token and leaves the token
table untouched. -/
theorem register_then_authenticate (db : AuthDB) (fn em pw : String) (u : User)
    (db' : AuthDB) (hreg : regSave db fn em pw pw = (.ok u, db')) :
    authenticate db' em pw = some u ∧
    (∀ pw', pw' ≠ pw → authenticate db' em pw' = none) ∧
    (∀ dbx : AuthDB, ∀ em' pw2, (∀ v ∈ dbx.users, v.email ≠ em') →
      authenticate dbx em' pw2 = none) ∧
    (∀ dbx : AuthDB, ∀ uid,
      issueOrGetToken (issueOrGetToken dbx uid).2 uid = issueOrGetToken dbx uid) := by
  have hem : emailTaken db em = false := by
    by_contra hx
    have hx' : emailTaken db em = true := by simpa using hx
    rw [regSave_email_taken db fn em pw hx'] at hreg
    exact absurd (congrArg Prod.fst hreg) (by simp)
  have hun : db.users.any (fun v => v.username == fn) = false := by
    by_contra hx
    have hx' : db.users.any (fun v => v.username == fn) = true := by simpa using hx
    rw [regSave_username_taken db fn em pw hem hx'] at hreg
    exact absurd (congrArg Prod.fst hreg) (by simp)
  rw [regSave_ok db fn em pw hem hun] at hreg
  have h1 := congrArg Prod.fst hreg
  have h2 := congrArg Prod.snd hreg
  simp only [Prod.fst, Prod.snd] at h1 h2
  have hu : u = { id := db.nextUserId, username := fn, fullname := fn, email := em,
                  passwordHash := hashPw pw } := by
    cases h1
    rfl
  have hnone : db.users.find? (fun v => v.email == em) = none := by
    rw [List.find?_eq_none]
    intro v hv
    simp only [beq_iff_eq]
    intro hvem
    have : emailTaken db em = true := (emailTaken_iff db em).mpr ⟨v, hv, hvem⟩
    simp [this] at hem
  have husers : db'.users = db.users ++ [u] := by
    rw [← h2, hu]
  refine ⟨?_, ?_, ?_, ?_⟩
  · rw [authenticate, husers, find?_append_left_none _ _ _ hnone]
    simp [hu, checkPassword]
  · intro pw' hpw
    rw [authenticate, husers, find?_append_left_none _ _ _ hnone]
    have : u.email == em := by simp [hu]
    simp only [List.find?_cons, this]
    have hck : checkPassword u pw' = false := by
      simp only [checkPassword, hu]
      simp only [beq_eq_false_iff_ne, ne_eq]
      intro hhash
      exact hpw (hashPw_injective hhash).symm
    simp [hck]
  · intro dbx em' pw2 hv
    rw [authenticate]
    have : dbx.users.find? (fun v => v.email == em') = none := by
      rw [List.find?_eq_none]
      intro v hvm
      simp only [beq_iff_eq]
      exact hv v hvm
    rw [this]
  · intro dbx uid
    cases hf : dbx.tokens.find? (fun p => p.1 == uid) with
    | some p => simp [issueOrGetToken, hf]
    | none =>
      have hstep : (dbx.tokens ++ [(uid, tokenKey dbx.nextTokenSeq)]).find?
          (fun p => p.1 == uid) = some (uid, tokenKey dbx.nextTokenSeq) := by
        rw [find?_append_left_none _ _ _ hf]
        simp
      simp [issueOrGetToken, hf, hstep]

/-- Witness for C9: a concrete registration followed by a successful login
with the same credentials. -/
theorem register_then_authenticate_witness :
    authenticate ⟨[⟨1, "Amy", "Amy", "amy@x.com", hashPw "pw"⟩], [], 2, 1⟩
      "amy@x.com" "pw" = some ⟨1, "Amy", "Amy", "amy@x.com", hashPw "pw"⟩ :=
  (register_then_authenticate ⟨[], [], 1, 1⟩ "Amy" "amy@x.com" "pw"
    ⟨1, "Amy", "Amy", "amy@x.com", hashPw "pw"⟩
    ⟨[⟨1, "Amy", "Amy", "amy@x.com", hashPw "pw"⟩], [], 2, 1⟩ rfl).1

/-- C10: registration stores the submitted fullname as both `username` and
`fullname`; since `username` is the unique identity column of the base user
model, re-registering an already-used fullname fails (with the integrity
error, not a serializer validation error) even when the email is fresh, and
creates no user. -/
theorem register_username_collision (db : AuthDB) (fn em pw : String) :
    (∀ u db', regSave db fn em pw pw = (.ok u, db') →
      u.username = fn ∧ u.fullname = fn) ∧
    ((∃ u ∈ db.users, u.username = fn) → emailTaken db em = false →
      regSave db fn em pw pw = (.error .usernameTaken, db) ∧
      RegError.isValidationError .usernameTaken = false) := by
  constructor
  · intro u db' hreg
    by_cases hem : emailTaken db em = true
    · rw [regSave_email_taken db fn em pw hem] at hreg
      exact absurd (congrArg Prod.fst hreg) (by simp)
    · have hem' : emailTaken db em = false := by simpa using hem
      by_cases hun : db.users.any (fun v => v.username == fn) = true
      · rw [regSave_username_taken db fn em pw hem' hun] at hreg
        exact absurd (congrArg Prod.fst hreg) (by simp)
      · have hun' : db.users.any (fun v => v.username == fn) = false := by
          simpa using hun
        rw [regSave_ok db fn em pw hem' hun'] at hreg
        have h1 := congrArg Prod.fst hreg
        simp at h1
        subst h1
        exact ⟨rfl, rfl⟩
  · rintro ⟨u, hu, hname⟩ hem
    have hun : db.users.any (fun v => v.username == fn) = true := by
      rw [List.any_eq_true]
      exact ⟨u, hu, by simp [hname]⟩
    exact ⟨regSave_username_taken db fn em pw hem hun, rfl⟩

/-! ## Claim C2: task delete vs update permission -/

/-- C2 counterexample: delete permission is NOT strictly stricter than
update permission.  In a state reached by the handlers themselves (owner 1
creates board 10 with member 2, creates task 11 with reviewer 2, then
patches the member list to empty), user 2 — the task's reviewer, no longer
a member — passes the DELETE check and can delete the task, yet fails the
PATCH membership check. -/
theorem task_delete_permission_not_stricter_cex :
    createBoard c2DB0 "Sprint" [2] 1 = .ok (c2Board, c2DB1) ∧
    createTask c2DB1 ⟨some 10, "T", "", none, some "high", none, none, some 2⟩ 1 =
      .ok (c2Task, c2DB2) ∧
    patchBoard c2DB2 10 ⟨none, some (.idList [])⟩ 1 = ⟨200, c2DB3⟩ ∧
    taskDetailObjectPermission "DELETE" 2 c2Task c2BoardAfter = true ∧
    taskDetailObjectPermission "PATCH" 2 c2Task c2BoardAfter = false ∧
    deleteTask c2DB3 11 2 = .ok ⟨c2DB0.users, [c2BoardAfter], [], [], 12⟩ ∧
    patchTask c2DB3 11 c2EmptyPatch 2 = .error .forbidden := by
  exact ⟨rfl, rfl, rfl, rfl, rfl, rfl, rfl⟩

/-- C2 (amended): `deleteTask` fails with Forbidden unless the actor is the
task's reviewer or the board's owner, and `updateTask`'s permission check
passes exactly for the board's owner or a member; delete permission implies
update permission whenever the task's reviewer (if any) is still the owner
or a member, but not in general. -/
theorem task_detail_permission_rules (u : Nat) (t : Task) (b : Board) :
    (taskDetailObjectPermission "DELETE" u t b = true ↔
      (t.reviewerId = some u ∨ b.ownerId = u)) ∧
    (taskDetailObjectPermission "PATCH" u t b = true ↔
      (b.ownerId = u ∨ u ∈ b.memberIds)) ∧
    ((∀ r, t.reviewerId = some r → (b.ownerId = r ∨ r ∈ b.memberIds)) →
      taskDetailObjectPermission "DELETE" u t b = true →
      taskDetailObjectPermission "PATCH" u t b = true) := by
  have hdel : taskDetailObjectPermission "DELETE" u t b =
      (t.reviewerId == some u || b.ownerId == u) := rfl
  have hpatch : taskDetailObjectPermission "PATCH" u t b =
      boardMemberOrOwner b u := rfl
  refine ⟨?_, ?_, ?_⟩
  · rw [hdel]
    simp
  · rw [hpatch, boardMemberOrOwner]
    simp
  · intro hrev hd
    rw [hdel] at hd
    rw [hpatch, boardMemberOrOwner]
    simp only [Bool.or_eq_true, beq_iff_eq] at hd ⊢
    rcases hd with hd | hd
    · rcases hrev u hd with h | h
      · exact Or.inl h
      · exact Or.inr (by simpa using h)
    · exact Or.inl hd

/-- Witness for C2's amended rule at concrete values: with the reviewer
still a member, delete permission implies update permission. -/
theorem task_detail_permission_rules_witness :
    taskDetailObjectPermission "PATCH" 2 c2Task c2Board = true :=
  (task_detail_permission_rules 2 c2Task c2Board).2.2
    (by intro r hr; cases hr; exact Or.inr (by decide))
    (by decide)

/-! ## Claim C5: board aggregate counts -/

/-- C5: the aggregate serializer filters on the literals `"TODO"` and
`"HIGH"`, but the model stores the choice values `"to-do"` and `"high"` —
so for a board holding one reachable to-do, high-priority task the
serializer reports `tasks_to_do_count = 0` and `tasks_high_prio_count = 0`
while the stored data contains exactly one such task; the filter literals
are not even valid choice values, so they can never match a
choices-validated row.  `member_count` and `ticket_count` are computed
correctly. -/
theorem board_aggregates_bug :
    createTask c5DB0 ⟨some 10, "Fix", "", none, some "high", none, none, none⟩ 1 =
      .ok (c5Task, c5DB) ∧
    get_member_count ⟨10, "Sprint", 1, [2]⟩ = 1 ∧
    get_ticket_count c5DB ⟨10, "Sprint", 1, [2]⟩ = 1 ∧
    get_tasks_to_do_count c5DB ⟨10, "Sprint", 1, [2]⟩ = 0 ∧
    get_tasks_high_prio_count c5DB ⟨10, "Sprint", 1, [2]⟩ = 0 ∧
    (c5DB.tasks.filter (fun t => t.boardId == 10 && t.status == Task.Status.TODO)).length
      = 1 ∧
    (c5DB.tasks.filter (fun t => t.boardId == 10 && t.priority == Task.Priority.HIGH)).length
      = 1 ∧
    Task.Status.values.contains "TODO" = false ∧
    Task.Priority.values.contains "HIGH" = false := by
  exact ⟨rfl, rfl, rfl, rfl, rfl, rfl, rfl, rfl, rfl⟩

/-! ## Claim C6: member-id validation on board create -/

/-- C6 counterexample: board creation performs existence validation on the
supplied member ids after all — an id that resolves to no user makes the
whole create fail with the field-keyed ValidationError instead of creating
the board. -/
theorem board_create_member_validation_cex :
    createBoard c6DB "Board" [42] 1 = .error (.validation "members") ∧
    c6DB.getUser 42 = none := by
  exact ⟨rfl, rfl⟩

theorem membersFieldToInternal_ok (s : DB) (ids : List Nat) (us : List User)
    (h : membersFieldToInternal s ids = .ok us) :
    us.map User.id = ids ∧ ∀ u ∈ us, u ∈ s.users := by
  induction ids generalizing us with
  | nil =>
    rw [membersFieldToInternal] at h
    cases h
    exact ⟨rfl, by intro u hu; cases hu⟩
  | cons i rest ih =>
    rw [membersFieldToInternal] at h
    cases hu : s.getUser i with
    | none => rw [hu] at h; cases h
    | some u =>
      rw [hu] at h
      have hu' : s.users.find? (fun v => v.id == i) = some u := hu
      have hid : u.id = i := by simpa using List.find?_some hu'
      have hmem : u ∈ s.users := List.mem_of_find?_eq_some hu'
      cases hr : membersFieldToInternal s rest with
      | error e => rw [hr] at h; cases h
      | ok us' =>
        rw [hr] at h
        cases h
        obtain ⟨h1, h2⟩ := ih us' hr
        refine ⟨by simp [hid, h1], ?_⟩
        intro v hv
        rcases List.mem_cons.mp hv with rfl | hv2
        · exact hmem
        · exact h2 v hv2

theorem membersFieldToInternal_ok_iff (s : DB) (ids : List Nat) :
    (∃ us, membersFieldToInternal s ids = .ok us) ↔
      (∀ i ∈ ids, ∃ u ∈ s.users, u.id = i) := by
  induction ids with
  | nil => simp [membersFieldToInternal]
  | cons i rest ih =>
    rw [membersFieldToInternal]
    cases hu : s.getUser i with
    | none =>
      simp only [hu]
      constructor
      · rintro ⟨us, hus⟩
        cases hus
      · intro hall
        obtain ⟨u, humem, hid⟩ := hall i (List.mem_cons_self i rest)
        have hne : s.users.find? (fun v => v.id == i) ≠ none := by
          intro hn
          have := List.find?_eq_none.mp hn u humem
          simp [hid] at this
        exact absurd hu hne
    | some u =>
      simp only [hu]
      have hu' : s.users.find? (fun v => v.id == i) = some u := hu
      have hid : u.id = i := by simpa using List.find?_some hu'
      have hmem : u ∈ s.users := List.mem_of_find?_eq_some hu'
      cases hr : membersFieldToInternal s rest with
      | error e =>
        simp only [hr]
        constructor
        · rintro ⟨us, hus⟩
          cases hus
        · intro hall
          obtain ⟨us, hus⟩ := ih.mpr (fun j hj => hall j (List.mem_cons_of_mem i hj))
          rw [hus] at hr
          cases hr
      | ok us =>
        simp only [hr]
        constructor
        · intro _ j hj
          rcases List.mem_cons.mp hj with rfl | hj2
          · exact ⟨u, hmem, hid⟩
          · exact ih.mp ⟨us, hr⟩ j hj2
        · intro _
          exact ⟨u :: us, rfl⟩

theorem membersFieldToInternal_error (s : DB) (ids : List Nat)
    (h : ¬ ∀ i ∈ ids, ∃ u ∈ s.users, u.id = i) :
    membersFieldToInternal s ids = .error (.validation "members") := by
  induction ids with
  | nil => exact absurd (by intro i hi; cases hi) h
  | cons i rest ih =>
    rw [membersFieldToInternal]
    cases hu : s.getUser i with
    | none => simp only [hu]
    | some u =>
      simp only [hu]
      have hu' : s.users.find? (fun v => v.id == i) = some u := hu
      have hid : u.id = i := by simpa using List.find?_some hu'
      have hmem : u ∈ s.users := List.mem_of_find?_eq_some hu'
      have hnot : ¬ ∀ j ∈ rest, ∃ v ∈ s.users, v.id = j := by
        intro hall
        apply h
        intro j hj
        rcases List.mem_cons.mp hj with rfl | hj2
        · exact ⟨u, hmem, hid⟩
        · exact hall j hj2
      rw [ih hnot]

/-- C6 (amended): `createBoard` sets the requesting user as owner and
replaces the membership wholesale with the users resolved from the supplied
ids — but, contrary to the claim, the ids ARE existence-validated at create
time (by the `PrimaryKeyRelatedField`): creation succeeds exactly when
every id resolves to an existing user, and otherwise fails with the same
400-class outcome as the PATCH path. -/
theorem board_create_semantics (s : DB) (title : String) (ids : List Nat) (a : Nat) :
    ((∃ b s', createBoard s title ids a = .ok (b, s')) ↔
      ∀ i ∈ ids, ∃ u ∈ s.users, u.id = i) ∧
    ((¬ ∀ i ∈ ids, ∃ u ∈ s.users, u.id = i) →
      createBoard s title ids a = .error (.validation "members")) ∧
    (∀ b s', createBoard s title ids a = .ok (b, s') →
      b.ownerId = a ∧ b.title = title ∧ b.memberIds = ids.dedup ∧
      s'.boards = s.boards ++ [b] ∧ s'.users = s.users ∧
      (∀ x, x ∈ b.memberIds ↔ x ∈ ids)) := by
  refine ⟨?_, ?_, ?_⟩
  · rw [← membersFieldToInternal_ok_iff]
    constructor
    · rintro ⟨b, s', hok⟩
      rw [createBoard] at hok
      cases hr : membersFieldToInternal s ids with
      | error e => rw [hr] at hok; cases hok
      | ok us => exact ⟨us, rfl⟩
    · rintro ⟨us, hus⟩
      rw [createBoard, hus]
      exact ⟨_, _, rfl⟩
  · intro h
    rw [createBoard, membersFieldToInternal_error s ids h]
  · intro b s' hok
    rw [createBoard] at hok
    cases hr : membersFieldToInternal s ids with
    | error e => rw [hr] at hok; cases hok
    | ok us =>
      rw [hr] at hok
      cases hok
      obtain ⟨hmap, _⟩ := membersFieldToInternal_ok s ids us hr
      refine ⟨rfl, rfl, by simp [hmap], rfl, rfl, ?_⟩
      intro x
      simp [hmap, List.mem_dedup]

/-- Witness for C6's amended semantics: creating a board with the one
existing user as member succeeds with owner 1 and members `[1]`. -/
theorem board_create_semantics_witness :
    createBoard c6DB "Board" [1] 1 = .ok (⟨10, "Board", 1, [1]⟩, ⟨c6DB.users, [⟨10, "Board", 1, [1]⟩], [], [], 11⟩) ∧
    (⟨10, "Board", 1, [1]⟩ : Board).ownerId = 1 ∧
    (⟨10, "Board", 1, [1]⟩ : Board).memberIds = [1].dedup := by
  have h := (board_create_semantics c6DB "Board" [1] 1).2.2
    ⟨10, "Board", 1, [1]⟩ ⟨c6DB.users, [⟨10, "Board", 1, [1]⟩], [], [], 11⟩ rfl
  exact ⟨rfl, h.1, h.2.2.1⟩

/-! ## Claim C3: board PATCH member validation -/

/-- C3 counterexample: a PATCH carrying both a new title and an
unresolvable member id returns 400, yet the board is NOT unchanged — the
title update was already saved when membership validation failed (the
members of the board are untouched, the title is not). -/
theorem board_patch_not_unchanged_cex :
    (patchBoard c3DB 7 ⟨some "New", some (.idList [999])⟩ 1).status = 400 ∧
    ((patchBoard c3DB 7 ⟨some "New", some (.idList [999])⟩ 1).db.getBoard 7).map
      Board.title = some "New" ∧
    (c3DB.getBoard 7).map Board.title = some "Old" ∧
    ((patchBoard c3DB 7 ⟨some "New", some (.idList [999])⟩ 1).db.getBoard 7).map
      Board.memberIds = some [] := by
  exact ⟨rfl, rfl, rfl, rfl⟩

theorem find?_boards_set (l : List Board) (pk : Nat) (nb : Board) (hid : nb.id = pk) :
    (l.map (fun x => if x.id == pk then nb else x)).find? (fun x => x.id == pk) =
      (l.find? (fun x => x.id == pk)).map (fun x => if x.id == pk then nb else x) := by
  rw [List.find?_map]
  have hp : ((fun x : Board => x.id == pk) ∘ (fun x => if x.id == pk then nb else x)) =
      (fun x : Board => x.id == pk) := by
    funext x
    by_cases hx : (x.id == pk) = true
    · simp [Function.comp, hx, hid]
    · simp only [Bool.not_eq_true] at hx
      simp [Function.comp, hx]
  rw [hp]

theorem resolved_count_iff (s : DB) (ids : List Nat)
    (husers : (s.users.map User.id).Nodup) :
    (s.users.filter (fun u => ids.contains u.id)).length = ids.dedup.length ↔
      ∀ i ∈ ids, ∃ u ∈ s.users, u.id = i := by
  set fl := s.users.filter (fun u => ids.contains u.id) with hfl
  have hsub : List.Sublist fl s.users := List.filter_sublist s.users
  have hnd : (fl.map User.id).Nodup := husers.sublist (hsub.map User.id)
  have hlen : fl.length = (fl.map User.id).toFinset.card := by
    rw [List.toFinset_card_of_nodup hnd, List.length_map]
  have hlen2 : ids.dedup.length = ids.toFinset.card := by
    rw [List.card_toFinset]
  have hAB : (fl.map User.id).toFinset ⊆ ids.toFinset := by
    intro x hx
    rw [List.mem_toFinset] at hx ⊢
    obtain ⟨u, hu, rfl⟩ := List.mem_map.mp hx
    have := List.of_mem_filter hu
    simpa using this
  rw [hlen, hlen2]
  constructor
  · intro hcard i hi
    have heq : (fl.map User.id).toFinset = ids.toFinset :=
      Finset.eq_of_subset_of_card_le hAB (le_of_eq hcard.symm)
    have : i ∈ (fl.map User.id).toFinset := by
      rw [heq, List.mem_toFinset]
      exact hi
    rw [List.mem_toFinset] at this
    obtain ⟨u, hu, huid⟩ := List.mem_map.mp this
    exact ⟨u, hsub.mem hu, huid⟩
  · intro hall
    have heq : (fl.map User.id).toFinset = ids.toFinset := by
      apply Finset.Subset.antisymm hAB
      intro x hx
      rw [List.mem_toFinset] at hx ⊢
      obtain ⟨u, hu, huid⟩ := hall x hx
      apply List.mem_map.mpr
      refine ⟨u, ?_, huid⟩
      rw [hfl]
      apply List.mem_filter.mpr
      exact ⟨hu, by simp [huid, hx]⟩
    rw [heq]

/-- C3 (amended): for a board PATCH whose body carries a members value, a
non-list value fails with 400, and a list with any unresolvable id (ids
validated as a set — duplicates collapse) fails with 400; in both failure
cases the board's MEMBERSHIP is unchanged, although a title carried in the
same patch has already been saved by then; with every id resolving, the
request succeeds and membership is replaced wholesale (exactly the
resolved users, not merged with the old member set). -/
theorem board_patch_members_semantics (s : DB) (pk a : Nat) (b : Board)
    (ttl : Option String)
    (hb : s.getBoard pk = some b) (hperm : boardMemberOrOwner b a = true)
    (husers : (s.users.map User.id).Nodup) :
    ((patchBoard s pk ⟨ttl, some .notAList⟩ a).status = 400 ∧
      ((patchBoard s pk ⟨ttl, some .notAList⟩ a).db.getBoard pk).map Board.memberIds =
        some b.memberIds) ∧
    (∀ ids, (¬ ∀ i ∈ ids, ∃ u ∈ s.users, u.id = i) →
      (patchBoard s pk ⟨ttl, some (.idList ids)⟩ a).status = 400 ∧
      ((patchBoard s pk ⟨ttl, some (.idList ids)⟩ a).db.getBoard pk).map Board.memberIds =
        some b.memberIds) ∧
    (∀ ids, (∀ i ∈ ids, ∃ u ∈ s.users, u.id = i) →
      (patchBoard s pk ⟨ttl, some (.idList ids)⟩ a).status = 200 ∧
      ∃ ms, ((patchBoard s pk ⟨ttl, some (.idList ids)⟩ a).db.getBoard pk).map
          Board.memberIds = some ms ∧
        (∀ x, x ∈ ms ↔ x ∈ ids)) := by
  have hbid : b.id = pk := by simpa using List.find?_some hb
  have hbf : s.boards.find? (fun x => x.id == pk) = some b := hb
  refine ⟨?_, ?_, ?_⟩
  · rw [patchBoard]
    simp only [DB.getBoard, hbf, hperm, Bool.not_true, Bool.false_eq_true, if_false]
    refine ⟨trivial, ?_⟩
    rw [find?_boards_set s.boards pk { b with title := ttl.getD b.title } hbid, hbf]
    simp [hbid]
  · intro ids hbad
    have hcnt : (s.users.filter (fun u => ids.contains u.id)).length ≠ ids.dedup.length := by
      intro hx
      exact hbad ((resolved_count_iff s ids husers).mp hx)
    have hbne : ((s.users.filter (fun u => ids.contains u.id)).length != ids.dedup.length) = true := by
      simpa using hcnt
    rw [patchBoard]
    simp only [DB.getBoard, hbf, hperm, Bool.not_true, Bool.false_eq_true, if_false, hbne,
      if_true]
    refine ⟨trivial, ?_⟩
    rw [find?_boards_set s.boards pk { b with title := ttl.getD b.title } hbid, hbf]
    simp [hbid]
  · intro ids hgood
    have hcnt : (s.users.filter (fun u => ids.contains u.id)).length = ids.dedup.length :=
      (resolved_count_iff s ids husers).mpr hgood
    have hbne : ((s.users.filter (fun u => ids.contains u.id)).length != ids.dedup.length) = false := by
      simpa using hcnt
    rw [patchBoard]
    simp only [DB.getBoard, hbf, hperm, Bool.not_true, Bool.false_eq_true, if_false, hbne]
    refine ⟨trivial, (s.users.filter (fun u => ids.contains u.id)).map User.id, ?_, ?_⟩
    · have h2 := find?_boards_set (s.boards.map (fun x => if x.id == pk then { b with title := ttl.getD b.title } else x)) pk { b with title := ttl.getD b.title, memberIds := (s.users.filter (fun u => ids.contains u.id)).map User.id } hbid
      rw [h2, find?_boards_set s.boards pk { b with title := ttl.getD b.title } hbid, hbf]
      simp [hbid]
    · intro x
      constructor
      · intro hx
        obtain ⟨u, hu, rfl⟩ := List.mem_map.mp hx
        have := List.of_mem_filter hu
        simpa using this
      · intro hx
        obtain ⟨u, hu, huid⟩ := hgood x hx
        apply List.mem_map.mpr
        refine ⟨u, List.mem_filter.mpr ⟨hu, by simp [huid, hx]⟩, huid⟩

/-- Witness for C3's amended semantics: on the concrete store, a non-list
members value is rejected with 400 and membership stays `[]`. -/
theorem board_patch_members_semantics_witness :
    (patchBoard c3DB 7 ⟨none, some .notAList⟩ 1).status = 400 ∧
    ((patchBoard c3DB 7 ⟨none, some .notAList⟩ 1).db.getBoard 7).map Board.memberIds =
      some [] :=
  (board_patch_members_semantics c3DB 7 1 ⟨7, "Old", 1, []⟩ none rfl rfl
    (by decide)).1

/-! ## Claim C7: three-state task PATCH semantics -/

theorem getValidUser_ok_some (s : DB) (uid : Nat) (b : Board) (field : String)
    (r : Option User) (h : getValidUser s (some uid) b field = .ok r) :
    ∃ u, r = some u ∧ u ∈ s.users ∧ u.id = uid ∧ boardMemberOrOwner b uid = true := by
  rw [getValidUser] at h
  cases hu : s.getUser uid with
  | none => rw [hu] at h; cases h
  | some u =>
    rw [hu] at h
    have hu' : s.users.find? (fun v => v.id == uid) = some u := hu
    have hid : u.id = uid := by simpa using List.find?_some hu'
    cases hperm : boardMemberOrOwner b u.id with
    | false => simp [hperm] at h
    | true =>
      simp only [hperm, if_true] at h
      cases h
      exact ⟨u, rfl, List.mem_of_find?_eq_some hu', hid, by rw [← hid]; exact hperm⟩

theorem getValidUser_error_shape (s : DB) (uid : Nat) (b : Board) (field : String)
    (e : ApiError) (h : getValidUser s (some uid) b field = .error e) :
    e = .validation field := by
  rw [getValidUser] at h
  cases hu : s.getUser uid with
  | none =>
    rw [hu] at h
    cases h
    rfl
  | some u =>
    rw [hu] at h
    cases hperm : boardMemberOrOwner b u.id with
    | false =>
      simp only [hperm, Bool.false_eq_true, if_false] at h
      cases h
      rfl
    | true => simp [hperm] at h

theorem getValidUser_cases (s : DB) (uid : Nat) (b : Board) (field : String) :
    getValidUser s (some uid) b field = .error (.validation field) ∨
      ∃ u ∈ s.users, u.id = uid ∧ boardMemberOrOwner b uid = true ∧
        getValidUser s (some uid) b field = .ok (some u) := by
  cases hgv : getValidUser s (some uid) b field with
  | error e =>
    left
    have he := getValidUser_error_shape s uid b field e hgv
    subst he
    rfl
  | ok r =>
    right
    obtain ⟨u, hr, hmem, hid, hperm⟩ := getValidUser_ok_some s uid b field r hgv
    subst hr
    exact ⟨u, hmem, hid, hperm, rfl⟩

theorem maybeAssignUser_set_ok (s : DB) (b : Board) (uid : Nat) (field : String)
    (cur r : Option Nat) (h : maybeAssignUser s b (.set uid) field cur = .ok r) :
    r = some uid ∧ ∃ u ∈ s.users, u.id = uid ∧ boardMemberOrOwner b uid = true := by
  rw [maybeAssignUser] at h
  cases hgv : getValidUser s (some uid) b field with
  | error e => rw [hgv] at h; cases h
  | ok u? =>
    rw [hgv] at h
    cases h
    obtain ⟨u, rfl, hmem, hid, hperm⟩ := getValidUser_ok_some s uid b field u? hgv
    exact ⟨by simp [hid], u, hmem, hid, hperm⟩

/-- C7: task PATCH is three-state on `assignee_id`/`reviewer_id` (absent
keeps, explicit null clears, explicit id validates membership and sets);
the scalar fields `title`, `description`, `status`, `priority` and
`due_date` are each replaced exactly when present in the patch; and the
task's board — like the rest of the store's boards and comments — is never
changed. -/
theorem task_patch_three_state (s : DB) (pk a : Nat) (p : TaskPatch) (t0 : Task)
    (ht : s.getTask pk = some t0) :
    (∀ tk s', patchTask s pk p a = .ok (tk, s') →
      tk.boardId = t0.boardId ∧
      tk.title = p.title.getD t0.title ∧
      tk.description = p.description.getD t0.description ∧
      tk.status = p.status.getD t0.status ∧
      tk.priority = p.priority.getD t0.priority ∧
      tk.dueDate = p.dueDate.getD t0.dueDate ∧
      (p.assigneeId = .absent → tk.assigneeId = t0.assigneeId) ∧
      (p.assigneeId = .null → tk.assigneeId = none) ∧
      (∀ uid, p.assigneeId = .set uid → tk.assigneeId = some uid ∧
        ∃ b, s.getBoard t0.boardId = some b ∧
          ∃ u ∈ s.users, u.id = uid ∧ boardMemberOrOwner b uid = true) ∧
      (p.reviewerId = .absent → tk.reviewerId = t0.reviewerId) ∧
      (p.reviewerId = .null → tk.reviewerId = none) ∧
      (∀ uid, p.reviewerId = .set uid → tk.reviewerId = some uid ∧
        ∃ b, s.getBoard t0.boardId = some b ∧
          ∃ u ∈ s.users, u.id = uid ∧ boardMemberOrOwner b uid = true) ∧
      s'.tasks = updateWhere s.tasks pk (fun _ => tk) ∧
      s'.boards = s.boards ∧ s'.comments = s.comments ∧ s'.users = s.users) ∧
    (∀ b uid field, getValidUser s (some uid) b field = .error (.validation field) ∨
      ∃ u ∈ s.users, u.id = uid ∧ boardMemberOrOwner b uid = true ∧
        getValidUser s (some uid) b field = .ok (some u)) := by
  constructor
  · intro tk s' hok
    rw [patchTask] at hok
    split at hok
    · cases hok
    · rename_i task htask
      split at hok
      · cases hok
      · rename_i board hboard
        have h0 := htask
        rw [ht] at h0
        injection h0 with h0
        subst h0
        split at hok
        · cases hok
        · split at hok
          · cases hok
          · split at hok
            · cases hok
            · split at hok
              · cases hok
              · rename_i av hav
                split at hok
                · cases hok
                · rename_i rv hrv
                  injection hok with h
                  injection h with h1 h2
                  subst h1
                  subst h2
                  refine ⟨rfl, rfl, rfl, rfl, rfl, rfl, ?_, ?_, ?_, ?_, ?_, ?_, rfl, rfl, rfl, rfl⟩
                  · intro hpa
                    rw [hpa] at hav
                    cases hav
                    rfl
                  · intro hpa
                    rw [hpa] at hav
                    cases hav
                    rfl
                  · intro uid hpa
                    rw [hpa] at hav
                    obtain ⟨hr, u, hmem, hid, hbm⟩ :=
                      maybeAssignUser_set_ok s board uid "assignee_id" t0.assigneeId av hav
                    exact ⟨by rw [hr], board, hboard, u, hmem, hid, hbm⟩
                  · intro hpr2
                    rw [hpr2] at hrv
                    cases hrv
                    rfl
                  · intro hpr2
                    rw [hpr2] at hrv
                    cases hrv
                    rfl
                  · intro uid hpr2
                    rw [hpr2] at hrv
                    obtain ⟨hr, u, hmem, hid, hbm⟩ :=
                      maybeAssignUser_set_ok s board uid "reviewer_id" t0.reviewerId rv hrv
                    exact ⟨by rw [hr], board, hboard, u, hmem, hid, hbm⟩
  · intro b uid field
    exact getValidUser_cases s uid b field

/-- Witness for C7: a concrete PATCH that sets a new title, clears the
assignee and leaves the reviewer untouched. -/
theorem task_patch_three_state_witness :
    (⟨11, 10, "X", "", "to-do", "high", none, some 2, none, 0⟩ : Task).boardId =
        c2Task.boardId ∧
    (⟨11, 10, "X", "", "to-do", "high", none, some 2, none, 0⟩ : Task).reviewerId =
        c2Task.reviewerId := by
  have h := (task_patch_three_state c2DB2 11 1
      ⟨some "X", none, none, none, none, .null, .absent⟩ c2Task rfl).1
    ⟨11, 10, "X", "", "to-do", "high", none, some 2, none, 0⟩
    ⟨c2DB0.users, [c2Board], [⟨11, 10, "X", "", "to-do", "high", none, some 2, none, 0⟩], [], 12⟩
    rfl
  exact ⟨h.1, h.2.2.2.2.2.2.2.2.2.1 rfl⟩

/-! ## Claim C1: the comments_count invariant -/

theorem updateWhere_find? (l : List Task) (pk tid : Nat) (f : Task → Task)
    (hf : ∀ t : Task, t.id = pk → (f t).id = t.id) :
    (updateWhere l pk f).find? (fun t => t.id == tid) =
      (l.find? (fun t => t.id == tid)).map (fun t => if t.id == pk then f t else t) := by
  have hp : ((fun t : Task => t.id == tid) ∘ (fun t => if t.id == pk then f t else t)) =
      (fun t : Task => t.id == tid) := by
    funext t
    by_cases hx : (t.id == pk) = true
    · simp only [Function.comp, hx, if_true]
      rw [hf t (by simpa using hx)]
    · simp only [Bool.not_eq_true] at hx
      simp [Function.comp, hx]
  rw [updateWhere, List.find?_map, hp]

theorem updateWhere_map_id (l : List Task) (pk : Nat) (f : Task → Task)
    (hf : ∀ t : Task, t.id = pk → (f t).id = t.id) :
    (updateWhere l pk f).map Task.id = l.map Task.id := by
  rw [updateWhere, List.map_map]
  apply List.map_congr_left
  intro t _
  by_cases hx : (t.id == pk) = true
  · simp only [Function.comp, hx, if_true]
    exact hf t (by simpa using hx)
  · simp only [Bool.not_eq_true] at hx
    simp [Function.comp, hx]

theorem mem_updateWhere (l : List Task) (pk : Nat) (f : Task → Task) (t' : Task)
    (h : t' ∈ updateWhere l pk f) :
    ∃ t ∈ l, t' = if t.id == pk then f t else t := by
  rw [updateWhere] at h
  obtain ⟨t, ht, heq⟩ := List.mem_map.mp h
  exact ⟨t, ht, heq.symm⟩

theorem length_filter_erase_id (l : List TaskComment) (cpk : Nat)
    (hnd : (l.map TaskComment.id).Nodup) (c : TaskComment) (hc : c ∈ l) (hid : c.id = cpk) :
    (l.filter (fun x => ! (x.id == cpk))).length + 1 = l.length := by
  induction l with
  | nil => cases hc
  | cons h t ih =>
    rw [List.map_cons, List.nodup_cons] at hnd
    obtain ⟨hh, ht⟩ := hnd
    rcases List.mem_cons.mp hc with rfl | hct
    · have hdrop : (! (c.id == cpk)) = false := by simp [hid]
      rw [List.filter_cons, hdrop]
      simp only [Bool.false_eq_true, if_false]
      have hkeep : t.filter (fun x => ! (x.id == cpk)) = t := by
        rw [List.filter_eq_self]
        intro x hx
        have hxne : x.id ≠ cpk := fun hxe =>
          hh (by rw [hid, ← hxe]; exact List.mem_map_of_mem TaskComment.id hx)
        simp [hxne]
      rw [hkeep]
      rfl
    · have hxne : h.id ≠ cpk := fun hxe =>
        hh (by rw [hxe, ← hid]; exact List.mem_map_of_mem TaskComment.id hct)
      have hkeeph : (! (h.id == cpk)) = true := by simp [hxne]
      rw [List.filter_cons, hkeeph]
      simp only [if_true, List.length_cons]
      rw [Nat.add_right_comm]
      rw [ih ht hct]

theorem filter_erase_id_other (l : List TaskComment) (cpk tid : Nat)
    (hnd : (l.map TaskComment.id).Nodup) (c : TaskComment) (hc : c ∈ l) (hid : c.id = cpk)
    (hct : c.taskId ≠ tid) :
    (l.filter (fun x => ! (x.id == cpk))).filter (fun x => x.taskId == tid) =
      l.filter (fun x => x.taskId == tid) := by
  rw [List.filter_filter]
  apply List.filter_congr
  intro x hx
  by_cases hxid : x.id = cpk
  · have hxc : x = c := List.inj_on_of_nodup_map hnd hx hc (by rw [hxid, hid])
    subst hxc
    have h1 : (x.taskId == tid) = false := by simpa using hct
    simp [h1]
  · have h2 : (! (x.id == cpk)) = true := by simpa using hxid
    simp [h2]

theorem length_filter_erase_id_eq (l : List TaskComment) (cpk tid : Nat)
    (hnd : (l.map TaskComment.id).Nodup) (c : TaskComment) (hc : c ∈ l) (hid : c.id = cpk)
    (hct : c.taskId = tid) :
    ((l.filter (fun x => ! (x.id == cpk))).filter (fun x => x.taskId == tid)).length + 1 =
      (l.filter (fun x => x.taskId == tid)).length := by
  have hcomm : (l.filter (fun x => ! (x.id == cpk))).filter (fun x => x.taskId == tid) =
      (l.filter (fun x => x.taskId == tid)).filter (fun x => ! (x.id == cpk)) := by
    rw [List.filter_filter, List.filter_filter]
    apply List.filter_congr
    intro x _
    exact Bool.and_comm _ _
  rw [hcomm]
  apply length_filter_erase_id (l.filter (fun x => x.taskId == tid)) cpk
    (hnd.sublist ((List.filter_sublist l).map TaskComment.id)) c
    (List.mem_filter.mpr ⟨hc, by simp [hct]⟩) hid

theorem find?_filter_ne (l : List Task) (pk tid : Nat) (hne : tid ≠ pk) :
    (l.filter (fun t => ! (t.id == pk))).find? (fun t => t.id == tid) =
      l.find? (fun t => t.id == tid) := by
  induction l with
  | nil => rfl
  | cons x t ih =>
    by_cases hx : (x.id == tid) = true
    · have hxid : x.id = tid := by simpa using hx
      have hxpk : (! (x.id == pk)) = true := by simp [hxid, hne]
      rw [List.filter_cons, hxpk]
      simp only [if_true]
      simp [List.find?_cons, hx]
    · have hx' : (x.id == tid) = false := by simpa using hx
      by_cases hpk2 : (! (x.id == pk)) = true
      · rw [List.filter_cons, hpk2]
        simp only [if_true]
        simp only [List.find?_cons, hx']
        exact ih
      · have hpk2' : (! (x.id == pk)) = false := by simpa using hpk2
        rw [List.filter_cons, hpk2']
        simp only [Bool.false_eq_true, if_false]
        rw [show (x :: t).find? (fun y => y.id == tid) = t.find? (fun y => y.id == tid) from by simp [List.find?_cons, hx']]
        exact ih

theorem createComment_ok (s : DB) (pk a : Nat) (cnt : String) (c : TaskComment) (s' : DB)
    (h : createComment s pk a cnt = .ok (c, s')) :
    ∃ task board, s.getTask pk = some task ∧ s.getBoard task.boardId = some board ∧
      boardMemberOrOwner board a = true ∧
      c = ⟨s.nextId, task.id, a, cnt, s.nextId⟩ ∧
      s' = { s with comments := s.comments ++ [c],
                    tasks := updateWhere s.tasks task.id
                      (fun t => { t with commentsCount := t.commentsCount + 1 }),
                    nextId := s.nextId + 1 } := by
  rw [createComment] at h
  split at h
  · cases h
  · rename_i task htask
    split at h
    · cases h
    · rename_i board hboard
      split at h
      · cases h
      · rename_i hperm
        injection h with h
        injection h with h1 h2
        refine ⟨task, board, htask, hboard, by simpa using hperm, h1.symm, ?_⟩
        rw [← h2, ← h1]

theorem createComment_preserves (s : DB) (pk a : Nat) (cnt : String) (c : TaskComment)
    (s' : DB) (hWF : WF s) (h : createComment s pk a cnt = .ok (c, s')) :
    WF s' ∧ countOf s' pk = (countOf s pk).map (· + 1) ∧
      ∀ tid, tid ≠ pk → countOf s' tid = countOf s tid := by
  obtain ⟨hids, hcids, htnd, hcnd, hund, hfk, hacc⟩ := hWF
  obtain ⟨task, board, htask, hboard, hperm, hcval, hs'⟩ := createComment_ok s pk a cnt c s' h
  have htid : task.id = pk := by
    simpa using List.find?_some (show s.tasks.find? (fun t => t.id == pk) = some task from htask)
  have htmem : task ∈ s.tasks :=
    List.mem_of_find?_eq_some (show s.tasks.find? (fun t => t.id == pk) = some task from htask)
  subst hs'
  subst hcval
  have hf : ∀ t : Task, t.id = pk →
      ((fun t : Task => { t with commentsCount := t.commentsCount + 1 }) t).id = t.id :=
    fun t _ => rfl
  have hgid : ∀ t : Task,
      ((fun t => if t.id == pk then { t with commentsCount := t.commentsCount + 1 } else t) t).id
        = t.id := by
    intro t
    by_cases hx : (t.id == pk) = true <;> simp [hx]
  rw [htid]
  constructor
  · refine ⟨?_, ?_, ?_, ?_, ?_, ?_, ?_⟩
    · intro t' ht'
      obtain ⟨t, htm, hteq⟩ := mem_updateWhere _ _ _ _ ht'
      have : t'.id = t.id := by rw [hteq]; exact hgid t
      rw [this]
      exact Nat.lt_succ_of_lt (hids t htm)
    · intro x hx
      rcases List.mem_append.mp hx with hx1 | hx2
      · exact Nat.lt_succ_of_lt (hcids x hx1)
      · rcases List.mem_singleton.mp hx2 with rfl
        exact Nat.lt_succ_self _
    · rw [updateWhere_map_id _ _ _ hf]
      exact htnd
    · rw [List.map_append]
      rw [List.nodup_append]
      refine ⟨hcnd, List.nodup_singleton _, ?_⟩
      intro x hx1 hx2
      rcases List.mem_singleton.mp hx2 with rfl
      obtain ⟨y, hy, hyid⟩ := List.mem_map.mp hx1
      exact absurd hyid (Nat.ne_of_lt (hcids y hy))
    · exact hund
    · intro x hx
      rcases List.mem_append.mp hx with hx1 | hx2
      · obtain ⟨t, htm, htid2⟩ := hfk x hx1
        refine ⟨(fun t => if t.id == pk then { t with commentsCount := t.commentsCount + 1 } else t) t, ?_, ?_⟩
        · exact List.mem_map_of_mem _ htm
        · rw [hgid t]; exact htid2
      · rcases List.mem_singleton.mp hx2 with rfl
        refine ⟨(fun t => if t.id == pk then { t with commentsCount := t.commentsCount + 1 } else t) task, ?_, ?_⟩
        · exact List.mem_map_of_mem _ htmem
        · rw [hgid task]
          exact htid
    · intro t' ht'
      obtain ⟨t, htm, hteq⟩ := mem_updateWhere _ _ _ _ ht'
      by_cases hx : (t.id == pk) = true
      · have hteq2 : t.id = pk := by simpa using hx
        have ht'eq : t' = { t with commentsCount := t.commentsCount + 1 } := by
          rw [hteq]
          simp [hx]
        subst ht'eq
        show t.commentsCount + 1 =
          ((List.filter (fun c => c.taskId == t.id)
            (s.comments ++ [⟨s.nextId, pk, a, cnt, s.nextId⟩])).length : Int)
        rw [List.filter_append, List.length_append]
        have hsing : (List.filter (fun c => c.taskId == t.id)
            [(⟨s.nextId, pk, a, cnt, s.nextId⟩ : TaskComment)]).length = 1 := by
          simp [List.filter_cons, hteq2]
        rw [hsing]
        show t.commentsCount + 1 = ((liveCount s t.id + 1 : Nat) : Int)
        rw [hacc t htm]
        push_cast
        ring
      · have hteq2 : t.id ≠ pk := by simpa using hx
        have ht'eq : t' = t := by
          rw [hteq]
          simp [hx]
        rw [ht'eq]
        show t.commentsCount =
          ((List.filter (fun c => c.taskId == t.id)
            (s.comments ++ [⟨s.nextId, pk, a, cnt, s.nextId⟩])).length : Int)
        rw [List.filter_append, List.length_append]
        have hsing : (List.filter (fun c => c.taskId == t.id)
            [(⟨s.nextId, pk, a, cnt, s.nextId⟩ : TaskComment)]).length = 0 := by
          have hne : (pk == t.id) = false := by
            simp only [beq_eq_false_iff_ne, ne_eq]
            exact fun hq => hteq2 hq.symm
          simp [List.filter_cons, hne]
        rw [hsing, Nat.add_zero]
        exact hacc t htm
  · constructor
    · show ((updateWhere s.tasks pk
          (fun t => { t with commentsCount := t.commentsCount + 1 })).find?
          (fun t => t.id == pk)).map Task.commentsCount =
        ((s.tasks.find? (fun t => t.id == pk)).map Task.commentsCount).map (· + 1)
      rw [updateWhere_find? _ _ _ _ hf]
      rw [show s.tasks.find? (fun t => t.id == pk) = some task from htask]
      have hb2 : (task.id == pk) = true := by simp [htid]
      simp [hb2, htid]
    · intro tid hne
      show ((updateWhere s.tasks pk
          (fun t => { t with commentsCount := t.commentsCount + 1 })).find?
          (fun t => t.id == tid)).map Task.commentsCount =
        (s.tasks.find? (fun t => t.id == tid)).map Task.commentsCount
      rw [updateWhere_find? _ _ _ _ hf]
      cases hfind : s.tasks.find? (fun t => t.id == tid) with
      | none => rfl
      | some t =>
        have hti : t.id = tid := by simpa using List.find?_some hfind
        have hx : (t.id == pk) = false := by simp [hti, hne]
        simp [hx, hti, hne]

theorem deleteComment_ok (s : DB) (pk cpk a : Nat) (s' : DB)
    (h : deleteComment s pk cpk a = .ok s') :
    ∃ task comment, s.getTask pk = some task ∧
      s.comments.find? (fun c => c.id == cpk && c.taskId == task.id) = some comment ∧
      comment.authorId = a ∧
      s' = { s with
        comments := s.comments.filter (fun c => ! (c.id == cpk)),
        tasks := updateWhere s.tasks comment.taskId
          (fun t => { t with commentsCount := t.commentsCount - 1 }) } := by
  rw [deleteComment] at h
  split at h
  · cases h
  · rename_i task htask
    split at h
    · cases h
    · rename_i comment hcomment
      split at h
      · cases h
      · rename_i hauth
        injection h with h
        refine ⟨task, comment, htask, hcomment, by simpa using hauth, h.symm⟩

theorem deleteComment_preserves (s : DB) (pk cpk a : Nat) (s' : DB)
    (hWF : WF s) (h : deleteComment s pk cpk a = .ok s') :
    WF s' ∧ countOf s' pk = (countOf s pk).map (· - 1) ∧
      (∀ tid, tid ≠ pk → countOf s' tid = countOf s tid) ∧
      (∀ t ∈ s'.tasks, 0 ≤ t.commentsCount) := by
  obtain ⟨hids, hcids, htnd, hcnd, hund, hfk, hacc⟩ := hWF
  obtain ⟨task, comment, htask, hcomment, hauth, hs'⟩ := deleteComment_ok s pk cpk a s' h
  have htid : task.id = pk := by
    simpa using List.find?_some (show s.tasks.find? (fun t => t.id == pk) = some task from htask)
  have hcprop := List.find?_some hcomment
  have hcid : comment.id = cpk := by
    have h2 := (Bool.and_eq_true _ _).mp hcprop
    simpa using h2.1
  have hctid : comment.taskId = pk := by
    have h2 := (Bool.and_eq_true _ _).mp hcprop
    rw [← htid]
    simpa using h2.2
  have hcmem : comment ∈ s.comments := List.mem_of_find?_eq_some hcomment
  subst hs'
  rw [hctid]
  have hf : ∀ t : Task, t.id = pk →
      ((fun t : Task => { t with commentsCount := t.commentsCount - 1 }) t).id = t.id :=
    fun t _ => rfl
  have hgid : ∀ t : Task,
      ((fun t => if t.id == pk then { t with commentsCount := t.commentsCount - 1 } else t) t).id
        = t.id := by
    intro t
    by_cases hx : (t.id == pk) = true <;> simp [hx]
  have hdec : ∀ tid, tid = pk →
      ((s.comments.filter (fun c => ! (c.id == cpk))).filter
        (fun c => c.taskId == tid)).length + 1 =
        (s.comments.filter (fun c => c.taskId == tid)).length := by
    intro tid htid2
    exact length_filter_erase_id_eq s.comments cpk tid hcnd comment hcmem hcid
      (by rw [hctid, htid2])
  have hkeep : ∀ tid, tid ≠ pk →
      (s.comments.filter (fun c => ! (c.id == cpk))).filter (fun c => c.taskId == tid) =
        s.comments.filter (fun c => c.taskId == tid) := by
    intro tid htid2
    exact filter_erase_id_other s.comments cpk tid hcnd comment hcmem hcid
      (by rw [hctid]; exact htid2.symm)
  have hacc' : ∀ t' ∈ updateWhere s.tasks pk
      (fun t => { t with commentsCount := t.commentsCount - 1 }),
      t'.commentsCount = (((s.comments.filter (fun c => ! (c.id == cpk))).filter
        (fun c => c.taskId == t'.id)).length : Int) := by
    intro t' ht'
    obtain ⟨t, htm, hteq⟩ := mem_updateWhere _ _ _ _ ht'
    by_cases hx : (t.id == pk) = true
    · have hteq2 : t.id = pk := by simpa using hx
      have ht'eq : t' = { t with commentsCount := t.commentsCount - 1 } := by
        rw [hteq]
        simp [hx]
      rw [ht'eq]
      show t.commentsCount - 1 =
        (((s.comments.filter (fun c => ! (c.id == cpk))).filter
          (fun c => c.taskId == t.id)).length : Int)
      have hn := hdec t.id hteq2
      have hot := hacc t htm
      simp only [liveCount] at hot
      omega
    · have hteq2 : t.id ≠ pk := by simpa using hx
      have ht'eq : t' = t := by
        rw [hteq]
        simp [hx]
      rw [ht'eq]
      show t.commentsCount =
        (((s.comments.filter (fun c => ! (c.id == cpk))).filter
          (fun c => c.taskId == t.id)).length : Int)
      rw [hkeep t.id hteq2]
      simpa [liveCount] using hacc t htm
  refine ⟨⟨?_, ?_, ?_, ?_, ?_, ?_, hacc'⟩, ?_, ?_, ?_⟩
  · intro t' ht'
    obtain ⟨t, htm, hteq⟩ := mem_updateWhere _ _ _ _ ht'
    have hsame : t'.id = t.id := by rw [hteq]; exact hgid t
    rw [hsame]
    exact hids t htm
  · intro x hx
    exact hcids x (List.mem_of_mem_filter hx)
  · rw [updateWhere_map_id _ _ _ hf]
    exact htnd
  · exact hcnd.sublist ((List.filter_sublist s.comments).map TaskComment.id)
  · exact hund
  · intro x hx
    obtain ⟨t, htm, htid2⟩ := hfk x (List.mem_of_mem_filter hx)
    refine ⟨(fun t => if t.id == pk then { t with commentsCount := t.commentsCount - 1 } else t) t,
      List.mem_map_of_mem _ htm, ?_⟩
    rw [hgid t]
    exact htid2
  · show ((updateWhere s.tasks pk
        (fun t => { t with commentsCount := t.commentsCount - 1 })).find?
        (fun t => t.id == pk)).map Task.commentsCount =
      ((s.tasks.find? (fun t => t.id == pk)).map Task.commentsCount).map (· - 1)
    rw [updateWhere_find? _ _ _ _ hf]
    rw [show s.tasks.find? (fun t => t.id == pk) = some task from htask]
    have hb2 : (task.id == pk) = true := by simp [htid]
    simp [hb2, htid]
  · intro tid hne
    show ((updateWhere s.tasks pk
        (fun t => { t with commentsCount := t.commentsCount - 1 })).find?
        (fun t => t.id == tid)).map Task.commentsCount =
      (s.tasks.find? (fun t => t.id == tid)).map Task.commentsCount
    rw [updateWhere_find? _ _ _ _ hf]
    cases hfind : s.tasks.find? (fun t => t.id == tid) with
    | none => rfl
    | some t =>
      have hti : t.id = tid := by simpa using List.find?_some hfind
      have hx : (t.id == pk) = false := by simp [hti, hne]
      simp [hx, hti, hne]
  · intro t' ht'
    rw [hacc' t' ht']
    exact Int.natCast_nonneg _

theorem patchTask_ok_shape (s : DB) (pk a : Nat) (p : TaskPatch) (tk : Task) (s' : DB)
    (h : patchTask s pk p a = .ok (tk, s')) :
    ∃ t0, s.getTask pk = some t0 ∧ tk.id = t0.id ∧ tk.commentsCount = t0.commentsCount ∧
      s' = { s with tasks := updateWhere s.tasks pk (fun _ => tk) } := by
  rw [patchTask] at h
  split at h
  · cases h
  · rename_i task htask
    split at h
    · cases h
    · split at h
      · cases h
      · split at h
        · cases h
        · split at h
          · cases h
          · split at h
            · cases h
            · rename_i av hav
              split at h
              · cases h
              · rename_i rv hrv
                injection h with h
                injection h with h1 h2
                refine ⟨task, htask, by rw [← h1], by rw [← h1], ?_⟩
                rw [← h2, ← h1]

theorem patchTask_counts (s : DB) (pk a : Nat) (p : TaskPatch) (tk : Task) (s' : DB)
    (h : patchTask s pk p a = .ok (tk, s')) :
    ∀ tid, countOf s' tid = countOf s tid := by
  obtain ⟨t0, ht0, hkid, hkcnt, hs'⟩ := patchTask_ok_shape s pk a p tk s' h
  have htid : t0.id = pk := by
    simpa using List.find?_some (show s.tasks.find? (fun t => t.id == pk) = some t0 from ht0)
  subst hs'
  have hf : ∀ t : Task, t.id = pk → ((fun _ : Task => tk) t).id = t.id := by
    intro t ht
    rw [hkid, htid, ht]
  intro tid
  show ((updateWhere s.tasks pk (fun _ => tk)).find?
      (fun t => t.id == tid)).map Task.commentsCount =
    (s.tasks.find? (fun t => t.id == tid)).map Task.commentsCount
  rw [updateWhere_find? _ _ _ _ hf]
  cases hfind : s.tasks.find? (fun t => t.id == tid) with
  | none => rfl
  | some t =>
    have hti : t.id = tid := by simpa using List.find?_some hfind
    by_cases hx : (t.id == pk) = true
    · have ht2 : t.id = pk := by simpa using hx
      have htp : tid = pk := by rw [← hti, ht2]
      subst htp
      rw [show s.tasks.find? (fun t => t.id == tid) = some t0 from ht0] at hfind
      injection hfind with hfind
      subst hfind
      simp [ht2, hkcnt]
    · have ht3 : t.id ≠ pk := by simpa using hx
      simp [hx, ht3]

theorem createTask_ok_shape (s : DB) (inp : TaskCreateInput) (a : Nat) (tk : Task) (s' : DB)
    (h : createTask s inp a = .ok (tk, s')) :
    tk.id = s.nextId ∧ tk.commentsCount = 0 ∧
      s' = { s with tasks := s.tasks ++ [tk], nextId := s.nextId + 1 } := by
  rw [createTask] at h
  cases hb : inp.boardId with
  | none =>
    simp only [hb] at h
    cases h
  | some bid =>
    simp only [hb] at h
    cases hgb : s.getBoard bid with
    | none =>
      simp only [hgb] at h
      cases h
    | some board =>
      simp only [hgb] at h
      by_cases hst : (! Task.Status.values.contains (inp.status.getD Task.Status.TODO)) = true
      · rw [if_pos hst] at h
        cases h
      · rw [if_neg hst] at h
        by_cases hpr : (! Task.Priority.values.contains
            (inp.priority.getD Task.Priority.MEDIUM)) = true
        · rw [if_pos hpr] at h
          cases h
        · rw [if_neg hpr] at h
          by_cases hmem : (! boardMemberOrOwner board a) = true
          · rw [if_pos hmem] at h
            cases h
          · rw [if_neg hmem] at h
            cases hva : getValidUser s inp.assigneeId board "assignee_id" with
            | error e =>
              simp only [hva] at h
              cases h
            | ok assignee =>
              simp only [hva] at h
              cases hvr : getValidUser s inp.reviewerId board "reviewer_id" with
              | error e =>
                simp only [hvr] at h
                cases h
              | ok reviewer =>
                simp only [hvr] at h
                injection h with h
                injection h with h1 h2
                exact ⟨by rw [← h1], by rw [← h1], by rw [← h2, ← h1]⟩

theorem createTask_preserves (s : DB) (inp : TaskCreateInput) (a : Nat) (tk : Task) (s' : DB)
    (hWF : WF s) (h : createTask s inp a = .ok (tk, s')) :
    WF s' ∧ tk.commentsCount = 0 ∧
      ∀ tid, tid ≠ tk.id → countOf s' tid = countOf s tid := by
  obtain ⟨hids, hcids, htnd, hcnd, hund, hfk, hacc⟩ := hWF
  obtain ⟨hkid, hkcnt, hs'⟩ := createTask_ok_shape s inp a tk s' h
  subst hs'
  have hfresh : ∀ t ∈ s.tasks, t.id ≠ tk.id := by
    intro t htm
    rw [hkid]
    exact Nat.ne_of_lt (hids t htm)
  refine ⟨⟨?_, ?_, ?_, hcnd, hund, ?_, ?_⟩, hkcnt, ?_⟩
  · intro t ht
    rcases List.mem_append.mp ht with ht1 | ht2
    · exact Nat.lt_succ_of_lt (hids t ht1)
    · rcases List.mem_singleton.mp ht2 with rfl
      rw [hkid]
      exact Nat.lt_succ_self _
  · intro c hc
    exact Nat.lt_succ_of_lt (hcids c hc)
  · rw [List.map_append]
    rw [List.nodup_append]
    refine ⟨htnd, List.nodup_singleton _, ?_⟩
    intro x hx1 hx2
    rcases List.mem_singleton.mp hx2 with rfl
    obtain ⟨y, hy, hyid⟩ := List.mem_map.mp hx1
    exact hfresh y hy hyid
  · intro c hc
    obtain ⟨t, htm, htid2⟩ := hfk c hc
    exact ⟨t, List.mem_append.mpr (Or.inl htm), htid2⟩
  · intro t ht
    rcases List.mem_append.mp ht with ht1 | ht2
    · show t.commentsCount = ((s.comments.filter (fun c => c.taskId == t.id)).length : Int)
      exact hacc t ht1
    · rcases List.mem_singleton.mp ht2 with rfl
      show t.commentsCount = ((s.comments.filter (fun c => c.taskId == t.id)).length : Int)
      rw [hkcnt]
      have hempty : s.comments.filter (fun c => c.taskId == t.id) = [] := by
        rw [List.filter_eq_nil_iff]
        intro c hc
        obtain ⟨t2, htm2, htid2⟩ := hfk c hc
        simp only [beq_iff_eq]
        rw [← htid2]
        exact hfresh t2 htm2
      rw [hempty]
      rfl
  · intro tid hne
    show ((s.tasks ++ [tk]).find? (fun t => t.id == tid)).map Task.commentsCount =
      (s.tasks.find? (fun t => t.id == tid)).map Task.commentsCount
    rw [List.find?_append]
    have hsing : [tk].find? (fun t => t.id == tid) = none := by
      have hq : (tk.id == tid) = false := by
        simp only [beq_eq_false_iff_ne, ne_eq]
        exact fun hq2 => hne hq2.symm
      simp [List.find?_cons, hq]
    rw [hsing, Option.or_none]

theorem deleteTask_ok_shape (s : DB) (pk a : Nat) (s' : DB)
    (h : deleteTask s pk a = .ok s') :
    s' = { s with tasks := s.tasks.filter (fun t => ! (t.id == pk)),
                  comments := s.comments.filter (fun c => ! (c.taskId == pk)) } := by
  rw [deleteTask] at h
  split at h
  · cases h
  · split at h
    · cases h
    · split at h
      · cases h
      · injection h with h
        exact h.symm

theorem deleteTask_preserves (s : DB) (pk a : Nat) (s' : DB)
    (hWF : WF s) (h : deleteTask s pk a = .ok s') :
    WF s' ∧ ∀ tid, tid ≠ pk → countOf s' tid = countOf s tid := by
  obtain ⟨hids, hcids, htnd, hcnd, hund, hfk, hacc⟩ := hWF
  have hs' := deleteTask_ok_shape s pk a s' h
  subst hs'
  refine ⟨⟨?_, ?_, ?_, ?_, hund, ?_, ?_⟩, ?_⟩
  · intro t ht
    exact hids t (List.mem_of_mem_filter ht)
  · intro c hc
    exact hcids c (List.mem_of_mem_filter hc)
  · exact htnd.sublist ((List.filter_sublist s.tasks).map Task.id)
  · exact hcnd.sublist ((List.filter_sublist s.comments).map TaskComment.id)
  · intro c hc
    have hcm := List.mem_of_mem_filter hc
    have hcp := List.of_mem_filter hc
    obtain ⟨t, htm, htid2⟩ := hfk c hcm
    refine ⟨t, List.mem_filter.mpr ⟨htm, ?_⟩, htid2⟩
    rw [htid2]
    exact hcp
  · intro t ht
    have htm := List.mem_of_mem_filter ht
    have htp := List.of_mem_filter ht
    have htne : t.id ≠ pk := by simpa using htp
    show t.commentsCount =
      (((s.comments.filter (fun c => ! (c.taskId == pk))).filter
        (fun c => c.taskId == t.id)).length : Int)
    have hcomm : (s.comments.filter (fun c => ! (c.taskId == pk))).filter
        (fun c => c.taskId == t.id) = s.comments.filter (fun c => c.taskId == t.id) := by
      rw [List.filter_filter]
      apply List.filter_congr
      intro x _
      by_cases hx : (x.taskId == t.id) = true
      · have hx2 : x.taskId = t.id := by simpa using hx
        have : (x.taskId == pk) = false := by simp [hx2, htne]
        simp [hx, this]
      · have hx' : (x.taskId == t.id) = false := by simpa using hx
        simp [hx']
    rw [hcomm]
    simpa [liveCount] using hacc t htm
  · intro tid hne
    show ((s.tasks.filter (fun t => ! (t.id == pk))).find?
        (fun t => t.id == tid)).map Task.commentsCount =
      (s.tasks.find? (fun t => t.id == tid)).map Task.commentsCount
    rw [find?_filter_ne s.tasks pk tid hne]

theorem patchBoard_store (s : DB) (pk : Nat) (inp : BoardPatchInput) (a : Nat) :
    (patchBoard s pk inp a).db.tasks = s.tasks ∧
      (patchBoard s pk inp a).db.comments = s.comments := by
  rw [patchBoard]
  split
  · exact ⟨rfl, rfl⟩
  · split
    · exact ⟨rfl, rfl⟩
    · split
      · exact ⟨rfl, rfl⟩
      · exact ⟨rfl, rfl⟩
      · dsimp only
        split
        · exact ⟨rfl, rfl⟩
        · exact ⟨rfl, rfl⟩

theorem createBoard_store (s : DB) (title : String) (ids : List Nat) (a : Nat) (b : Board)
    (s' : DB) (h : createBoard s title ids a = .ok (b, s')) :
    s'.tasks = s.tasks ∧ s'.comments = s.comments := by
  rw [createBoard] at h
  cases hr : membersFieldToInternal s ids with
  | error e =>
    rw [hr] at h
    cases h
  | ok us =>
    rw [hr] at h
    injection h with h
    injection h with h1 h2
    rw [← h2]
    exact ⟨rfl, rfl⟩

/-- C1: under relational well-formedness, every task's `comments_count`
equals its live comment count and is never below zero; a successful
createComment increments exactly the target task's counter by 1 and
preserves the invariant; a successful deleteComment decrements it by
exactly 1, preserves the invariant and leaves every counter non-negative;
and no other handler changes any counter — task patch, task create (for the
pre-existing tasks), task delete (for the surviving tasks), board patch and
board create leave them all untouched. -/
theorem comments_count_invariant (s : DB) (hWF : WF s) :
    (∀ t ∈ s.tasks, t.commentsCount = (liveCount s t.id : Int) ∧ 0 ≤ t.commentsCount) ∧
    (∀ pk a cnt c s', createComment s pk a cnt = .ok (c, s') →
      WF s' ∧ countOf s' pk = (countOf s pk).map (· + 1) ∧
      ∀ tid, tid ≠ pk → countOf s' tid = countOf s tid) ∧
    (∀ pk cpk a s', deleteComment s pk cpk a = .ok s' →
      WF s' ∧ countOf s' pk = (countOf s pk).map (· - 1) ∧
      (∀ tid, tid ≠ pk → countOf s' tid = countOf s tid) ∧
      ∀ t ∈ s'.tasks, 0 ≤ t.commentsCount) ∧
    (∀ pk p a tk s', patchTask s pk p a = .ok (tk, s') →
      ∀ tid, countOf s' tid = countOf s tid) ∧
    (∀ inp a tk s', createTask s inp a = .ok (tk, s') →
      WF s' ∧ tk.commentsCount = 0 ∧
      ∀ tid, tid ≠ tk.id → countOf s' tid = countOf s tid) ∧
    (∀ pk a s', deleteTask s pk a = .ok s' →
      WF s' ∧ ∀ tid, tid ≠ pk → countOf s' tid = countOf s tid) ∧
    (∀ pk inp a, (patchBoard s pk inp a).db.tasks = s.tasks ∧
      (patchBoard s pk inp a).db.comments = s.comments) ∧
    (∀ ttl ids a b s', createBoard s ttl ids a = .ok (b, s') →
      s'.tasks = s.tasks ∧ s'.comments = s.comments) := by
  refine ⟨?_, ?_, ?_, ?_, ?_, ?_, ?_, ?_⟩
  · intro t ht
    have hc := hWF.2.2.2.2.2.2 t ht
    exact ⟨hc, by rw [hc]; exact Int.natCast_nonneg _⟩
  · intro pk a cnt c s' h
    exact createComment_preserves s pk a cnt c s' hWF h
  · intro pk cpk a s' h
    exact deleteComment_preserves s pk cpk a s' hWF h
  · intro pk p a tk s' h
    exact patchTask_counts s pk a p tk s' h
  · intro inp a tk s' h
    exact createTask_preserves s inp a tk s' hWF h
  · intro pk a s' h
    exact deleteTask_preserves s pk a s' hWF h
  · intro pk inp a
    exact patchBoard_store s pk inp a
  · intro ttl ids a b s' h
    exact createBoard_store s ttl ids a b s' h

/-- Witness for C1: on a concrete well-formed store, creating a comment on
task 11 bumps its counter from 0 to 1, matching the live comment count. -/
theorem comments_count_invariant_witness :
    WF c2DB2 ∧
    countOf ⟨c2DB0.users, [c2Board],
        [⟨11, 10, "T", "", "to-do", "high", none, some 2, none, 1⟩],
        [⟨12, 11, 2, "hi", 12⟩], 13⟩ 11 =
      (countOf c2DB2 11).map (· + 1) := by
  have hwf : WF c2DB2 := by
    unfold WF countersAccurate
    decide
  refine ⟨hwf, ?_⟩
  have h := (comments_count_invariant c2DB2 hwf).2.1 11 2 "hi" ⟨12, 11, 2, "hi", 12⟩
    ⟨c2DB0.users, [c2Board],
      [⟨11, 10, "T", "", "to-do", "high", none, some 2, none, 1⟩],
      [⟨12, 11, 2, "hi", 12⟩], 13⟩ rfl
  exact h.2.1

/-- Witness for C10: with "Amy" already registered, a second registration
under the fullname "Amy" and a fresh email fails and creates no user. -/
theorem register_username_collision_witness :
    regSave ⟨[⟨1, "Amy", "Amy", "amy@x.com", hashPw "pw"⟩], [], 2, 1⟩
        "Amy" "fresh@x.com" "pw2" "pw2" =
      (.error .usernameTaken, ⟨[⟨1, "Amy", "Amy", "amy@x.com", hashPw "pw"⟩], [], 2, 1⟩) :=
  ((register_username_collision ⟨[⟨1, "Amy", "Amy", "amy@x.com", hashPw "pw"⟩], [], 2, 1⟩
      "Amy" "fresh@x.com" "pw2").2
    ⟨⟨1, "Amy", "Amy", "amy@x.com", hashPw "pw"⟩, by simp, rfl⟩ (by decide)).1

end Kanmind
